import Mathlib

/-!
Verification development for the tldraw-mcp document store
(src/src/index.ts).  The TypeScript source manipulates JSON values
decoded by the JavaScript runtime library (JSON.parse / JSON.stringify);
those external library functions are modelled as follows:

* JSON values are the inductive type Json below.  JavaScript numbers are
  modelled as integers (every numeric constant the program itself writes
  is an integer); object fields are ordered association lists, as
  produced by JSON.parse, whose objects always have pairwise distinct
  keys.
* For the plain and wrapped JSON storage formats, a file on disk is
  modelled by the outcome of parsing its text: either a parse failure or
  the parsed Json value.  The round-trip property of the external pair
  JSON.parse / JSON.stringify is outside this repository and is the
  reason encode and decode compose at the value level.
* For the embedded markdown format the file is modelled as its character
  sequence, because the code of the repository itself does textual work
  there (marker search, slicing, splicing).  The external JSON.parse and
  JSON.stringify are modelled by the executable functions jsonParse and
  jsonStringify below.
-/

/-- Model of a JavaScript JSON value, as produced by JSON.parse. -/
inductive Json where
  | null : Json
  | bool (b : Bool) : Json
  | num (n : Int) : Json
  | str (s : String) : Json
  | arr (xs : List Json) : Json
  | obj (fields : List (String × Json)) : Json

/-- Error taxonomy of the operations, one constructor per kind of thrown
error in the source; typeError stands for a TypeError raised by the
JavaScript runtime itself (property access on null). -/
inductive Err where
  | pathTraversal
  | unsupportedExtension
  | notFound
  | malformedContent
  | invalidDocument
  | invalidWrappedDocument
  | missingBlock
  | duplicateBlock
  | emptyBlock
  | noPages
  | shapeNotFound
  | alreadyExists
  | typeError
deriving DecidableEq, Repr

/-- First-match lookup in an ordered field list.  JavaScript objects
have pairwise distinct keys, for which first match and last match
coincide. -/
def getF : List (String × Json) → String → Option Json
  | [], _ => none
  | (k0, v) :: t, k => if k0 = k then some v else getF t k

/-- Property access v[k] on a JSON value: objects look up the field,
every other value yields undefined (modelled as none).  Access on null
is handled separately by the callers that crash on it. -/
def jsGet (v : Json) (k : String) : Option Json :=
  match v with
  | Json.obj fields => getF fields k
  | _ => none

/-- JavaScript truthiness of a JSON value. -/
def truthy : Json → Bool
  | Json.null => false
  | Json.bool b => b
  | Json.num n => decide (n ≠ 0)
  | Json.str s => decide (s ≠ "")
  | Json.arr _ => true
  | Json.obj _ => true

/-- Truthiness of a possibly undefined value (undefined is falsy). -/
def truthyOpt : Option Json → Bool
  | some v => truthy v
  | none => false

/-- Whether typeof v is the string object: true for null, arrays and
objects in JavaScript. -/
def typeofObject : Json → Bool
  | Json.null => true
  | Json.arr _ => true
  | Json.obj _ => true
  | _ => false

/-- Whether a possibly undefined value is a number. -/
def isNumV : Option Json → Bool
  | some (Json.num _) => true
  | _ => false

/-- Assignment obj[k] = v on an ordered field list: an existing key
keeps its position, a new key is appended.  This is also the effect of
the spread { ...fields, raw: v } used by the writer. -/
def setKey : List (String × Json) → String → Json → List (String × Json)
  | [], k, v => [(k, v)]
  | (k0, v0) :: t, k, v => if k0 = k then (k, v) :: t else (k0, v0) :: setKey t k v

/-- Record-by-record part of validateTldrawFile: the source evaluates
record.id on each element, which on a null element raises a TypeError
before any validation message can be produced. -/
def validateRecordsList : List Json → Option Err
  | [] => none
  | r :: t =>
    match r with
    | Json.null => some Err.typeError
    | _ =>
      if truthyOpt (jsGet r "id") && truthyOpt (jsGet r "typeName") then
        validateRecordsList t
      else some Err.invalidDocument

/-- Model of validateTldrawFile (src/src/index.ts lines 102 to 129):
requires a truthy value of typeof object, a numeric
tldrawFileFormatVersion, a truthy schema of typeof object, an array of
records, and each record with truthy id and typeName; returns the input
value on success. -/
def validateTldrawFile (data : Json) : Except Err Json :=
  if (truthy data && typeofObject data) = true then
    if isNumV (jsGet data "tldrawFileFormatVersion") = true then
      if (match jsGet data "schema" with
          | some s => truthy s && typeofObject s
          | none => false) = true then
        match jsGet data "records" with
        | some (Json.arr rs) =>
          match validateRecordsList rs with
          | some e => Except.error e
          | none => Except.ok data
        | _ => Except.error Err.invalidDocument
      else Except.error Err.invalidDocument
    else Except.error Err.invalidDocument
  else Except.error Err.invalidDocument

/-- Model of normalizeTldrawPayload (lines 193 to 214): an object with a
raw field is a wrapped document whose raw member must be truthy of
typeof object and validate; any other payload validates directly. -/
def normalizeTldrawPayload (data : Json) :
    Except Err (Json × Option (List (String × Json))) :=
  if (truthy data && typeofObject data) = true then
    match data with
    | Json.obj fields =>
      match getF fields "raw" with
      | some r =>
        if (truthy r && typeofObject r) = true then
          match validateTldrawFile r with
          | Except.ok f => Except.ok (f, some fields)
          | Except.error e => Except.error e
        else Except.error Err.invalidWrappedDocument
      | none =>
        match validateTldrawFile (Json.obj fields) with
        | Except.ok f => Except.ok (f, none)
        | Except.error e => Except.error e
    | _ =>
      match validateTldrawFile data with
      | Except.ok f => Except.ok (f, none)
      | Except.error e => Except.error e
  else Except.error Err.invalidDocument

/-- Storage format tag of a parsed file. -/
inductive TldrawStorageFormat where
  | plainJson
  | wrappedJson
  | embeddedMarkdown
deriving DecidableEq, Repr

/-- Result of the decode pipeline: the logical document, the detected
storage format and, when wrapped, the opaque container fields. -/
structure ParsedTldrawContent where
  file : Json
  storageFormat : TldrawStorageFormat
  wrappedContainer : Option (List (String × Json))

/-- Model of getWrappedContainerForTldraw (lines 249 to 270) for a .tldr
path.  The argument models the state of the existing file: none when the
file does not exist, some (Except.error ()) when its text does not
parse, some (Except.ok d) when it parses to d.  Read and parse failures
are swallowed by the try catch and yield no container.  Note that the
raw member is only required to be of typeof object here, without a
truthiness check. -/
def getWrappedContainerForTldraw (existing : Option (Except Unit Json)) :
    Option (List (String × Json)) :=
  match existing with
  | none => none
  | some (Except.error _) => none
  | some (Except.ok d) =>
    if (truthy d && typeofObject d) = true then
      match d with
      | Json.obj fields =>
        match getF fields "raw" with
        | some r => if typeofObject r then some fields else none
        | none => none
      | _ => none
    else none

/-- Model of the .tldr branch of tldrawWrite (lines 363 to 408): the
input payload is normalized, the container of the existing file (if any)
is preferred over a container supplied inline, and the value returned is
the payload serialized into the file (the stringify and disk write being
the external runtime). -/
def tldrawWriteTldr (existing : Option (Except Unit Json)) (input : Json) :
    Except Err Json :=
  match normalizeTldrawPayload input with
  | Except.error e => Except.error e
  | Except.ok (file, inputWrappedContainer) =>
    let wrappedContainer :=
      match getWrappedContainerForTldraw existing with
      | some c => some c
      | none => inputWrappedContainer
    match wrappedContainer with
    | some fields => Except.ok (Json.obj (setKey fields "raw" file))
    | none => Except.ok file

/-- Model of parseTldrawContent (lines 216 to 247) for a .tldr path, at
the level of the parse outcome of the file text: a parse failure is the
MalformedContent error, otherwise the payload is normalized and the
storage format derived from the presence of a container. -/
def parseTldrawContentTldr (parsed : Except Unit Json) :
    Except Err ParsedTldrawContent :=
  match parsed with
  | Except.error _ => Except.error Err.malformedContent
  | Except.ok data =>
    match normalizeTldrawPayload data with
    | Except.error e => Except.error e
    | Except.ok (file, wrappedContainer) =>
      Except.ok
        { file := file
          storageFormat :=
            match wrappedContainer with
            | some _ => TldrawStorageFormat.wrappedJson
            | none => TldrawStorageFormat.plainJson
          wrappedContainer := wrappedContainer }

lemma validate_ok_shape {d : Json} (h : validateTldrawFile d = Except.ok d) :
    (truthy d && typeofObject d) = true := by
  by_cases hc : (truthy d && typeofObject d) = true
  · exact hc
  · simp [validateTldrawFile, hc] at h

lemma validate_ok_obj {d : Json} (h : validateTldrawFile d = Except.ok d) :
    ∃ fields, d = Json.obj fields := by
  cases d with
  | obj fields => exact ⟨fields, rfl⟩
  | null => simp [validateTldrawFile, truthy] at h
  | bool b => simp [validateTldrawFile, truthy, typeofObject] at h
  | num n => simp [validateTldrawFile, truthy, typeofObject] at h
  | str s => simp [validateTldrawFile, truthy, typeofObject] at h
  | arr xs => simp [validateTldrawFile, truthy, typeofObject, jsGet, isNumV] at h

lemma normalize_bare {d : Json} (hv : validateTldrawFile d = Except.ok d)
    (hbare : jsGet d "raw" = none) :
    normalizeTldrawPayload d = Except.ok (d, none) := by
  obtain ⟨fields, rfl⟩ := validate_ok_obj hv
  have hsh := validate_ok_shape hv
  simp only [jsGet] at hbare
  simp [normalizeTldrawPayload, hsh, hbare, hv]

/-- Claim C1: a valid bare Document written to a plain-format .tldr path
with no pre-existing wrapped file decodes back to an equal Document:
decode after encode is the identity for the plain storage format. -/
theorem plain_format_roundtrip (d : Json) (existing : Option (Except Unit Json))
    (hv : validateTldrawFile d = Except.ok d)
    (hbare : jsGet d "raw" = none)
    (hnoc : getWrappedContainerForTldraw existing = none) :
    tldrawWriteTldr existing d = Except.ok d ∧
    parseTldrawContentTldr (Except.ok d) =
      Except.ok ⟨d, TldrawStorageFormat.plainJson, none⟩ := by
  have hn := normalize_bare hv hbare
  constructor
  · simp [tldrawWriteTldr, hn, hnoc]
  · simp [parseTldrawContentTldr, hn]

/-- Concrete document used by several witnesses: a minimal valid file
with one page record. -/
def docSample : Json :=
  Json.obj
    [("tldrawFileFormatVersion", Json.num 1),
     ("schema",
       Json.obj [("schemaVersion", Json.num 2), ("sequences", Json.obj [])]),
     ("records",
       Json.arr
         [Json.obj
           [("id", Json.str "page:p1"), ("typeName", Json.str "page"),
            ("name", Json.str "Page 1"), ("index", Json.str "a1")]])]

/-- Witness for claim C1 at the sample document and an absent file. -/
theorem plain_format_roundtrip_witness :
    tldrawWriteTldr none docSample = Except.ok docSample ∧
    parseTldrawContentTldr (Except.ok docSample) =
      Except.ok ⟨docSample, TldrawStorageFormat.plainJson, none⟩ :=
  plain_format_roundtrip docSample none (by rfl) (by rfl) (by rfl)

lemma getF_setKey_self (fs : List (String × Json)) (k : String) (v : Json) :
    getF (setKey fs k v) k = some v := by
  induction fs with
  | nil => simp [setKey, getF]
  | cons p t ih =>
    obtain ⟨k0, v0⟩ := p
    by_cases h : k0 = k
    · simp [setKey, h, getF]
    · simp [setKey, h, getF, ih]

lemma getF_setKey_other (fs : List (String × Json)) (k : String) (v : Json)
    (k' : String) (h : k' ≠ k) :
    getF (setKey fs k v) k' = getF fs k' := by
  induction fs with
  | nil =>
    have hne : ¬ k = k' := fun hh => h (Eq.symm hh)
    simp [setKey, getF, hne]
  | cons p t ih =>
    obtain ⟨k0, v0⟩ := p
    by_cases h0 : k0 = k
    · subst h0
      have hne : ¬ k0 = k' := fun hh => h (Eq.symm hh)
      simp [setKey, getF, hne]
    · by_cases h1 : k0 = k'
      · simp [setKey, h0, getF, h1, h]
      · simp [setKey, h0, getF, h1, ih]

lemma validate_ok_typeof {r : Json} (h : validateTldrawFile r = Except.ok r) :
    typeofObject r = true :=
  (Bool.and_eq_true _ _ |>.mp (validate_ok_shape h)).2

@[simp] lemma truthy_obj (fs : List (String × Json)) :
    truthy (Json.obj fs) = true := rfl

@[simp] lemma typeofObject_obj (fs : List (String × Json)) :
    typeofObject (Json.obj fs) = true := rfl

/-- Claim C2: writing a bare Document to a .tldr path whose existing
content is a wrapped Document replaces only the raw field of the
container read from disk, preserves every other field, and prefers the
container recovered from disk over a container supplied inline by the
caller. -/
theorem wrapped_container_preserved (fields : List (String × Json)) (r d : Json)
    (hr : getF fields "raw" = some r)
    (hrv : validateTldrawFile r = Except.ok r)
    (hd : validateTldrawFile d = Except.ok d)
    (hbare : jsGet d "raw" = none) :
    tldrawWriteTldr (some (Except.ok (Json.obj fields))) d =
      Except.ok (Json.obj (setKey fields "raw" d)) ∧
    (∀ k, k ≠ "raw" → getF (setKey fields "raw" d) k = getF fields k) ∧
    getF (setKey fields "raw" d) "raw" = some d ∧
    (∀ input f ic, normalizeTldrawPayload input = Except.ok (f, some ic) →
      tldrawWriteTldr (some (Except.ok (Json.obj fields))) input =
        Except.ok (Json.obj (setKey fields "raw" f))) := by
  have hto := validate_ok_typeof hrv
  have hcont : getWrappedContainerForTldraw (some (Except.ok (Json.obj fields))) =
      some fields := by
    simp [getWrappedContainerForTldraw, hr, hto]
  refine ⟨?_, ?_, ?_, ?_⟩
  · have hn := normalize_bare hd hbare
    simp [tldrawWriteTldr, hn, hcont]
  · intro k hk
    exact getF_setKey_other fields "raw" d k hk
  · exact getF_setKey_self fields "raw" d
  · intro input f ic hni
    simp [tldrawWriteTldr, hni, hcont]

/-- Container used by the C2 witness: a wrapped file with two extra
container fields around the raw document. -/
def containerSample : List (String × Json) :=
  [("name", Json.str "drawing"), ("raw", docSample), ("meta", Json.num 7)]

/-- Witness for claim C2 at a concrete wrapped container. -/
theorem wrapped_container_preserved_witness :
    tldrawWriteTldr (some (Except.ok (Json.obj containerSample))) docSample =
      Except.ok (Json.obj (setKey containerSample "raw" docSample)) ∧
    getF (setKey containerSample "raw" docSample) "name" =
      some (Json.str "drawing") ∧
    getF (setKey containerSample "raw" docSample) "meta" = some (Json.num 7) ∧
    getF (setKey containerSample "raw" docSample) "raw" = some docSample := by
  have h := wrapped_container_preserved containerSample docSample docSample
    (by rfl) (by rfl) (by rfl) (by rfl)
  exact ⟨h.1, by simpa using h.2.1 "name" (by decide),
    by simpa using h.2.1 "meta" (by decide), h.2.2.1⟩

/-- Claim C9 condition, written from the words of the spec: the value is
a non-null object, its format-version field is numeric, its schema field
is a non-null object, its records field is an array, and every element
of that array has a truthy id and a truthy typeName. -/
def specValidDocument (v : Json) : Bool :=
  truthy v && typeofObject v &&
  isNumV (jsGet v "tldrawFileFormatVersion") &&
  (match jsGet v "schema" with
   | some s => truthy s && typeofObject s
   | none => false) &&
  (match jsGet v "records" with
   | some (Json.arr rs) =>
     rs.all (fun r => truthyOpt (jsGet r "id") && truthyOpt (jsGet r "typeName"))
   | _ => false)

lemma vrl_none_iff (rs : List Json) :
    validateRecordsList rs = none ↔
      rs.all (fun r => truthyOpt (jsGet r "id") && truthyOpt (jsGet r "typeName")) =
        true := by
  induction rs with
  | nil => simp [validateRecordsList]
  | cons r t ih =>
    cases r with
    | null => simp [validateRecordsList, jsGet, truthyOpt]
    | bool b =>
      by_cases hc : (truthyOpt (jsGet (Json.bool b) "id") &&
          truthyOpt (jsGet (Json.bool b) "typeName")) = true
      · simp [validateRecordsList, hc, ih]
      · simp [validateRecordsList, hc]
    | num n =>
      by_cases hc : (truthyOpt (jsGet (Json.num n) "id") &&
          truthyOpt (jsGet (Json.num n) "typeName")) = true
      · simp [validateRecordsList, hc, ih]
      · simp [validateRecordsList, hc]
    | str s =>
      by_cases hc : (truthyOpt (jsGet (Json.str s) "id") &&
          truthyOpt (jsGet (Json.str s) "typeName")) = true
      · simp [validateRecordsList, hc, ih]
      · simp [validateRecordsList, hc]
    | arr xs =>
      by_cases hc : (truthyOpt (jsGet (Json.arr xs) "id") &&
          truthyOpt (jsGet (Json.arr xs) "typeName")) = true
      · simp [validateRecordsList, hc, ih]
      · simp [validateRecordsList, hc]
    | obj fs =>
      by_cases hc : (truthyOpt (jsGet (Json.obj fs) "id") &&
          truthyOpt (jsGet (Json.obj fs) "typeName")) = true
      · simp [validateRecordsList, hc, ih]
      · simp [validateRecordsList, hc]

lemma vrl_error (rs : List Json) (e : Err) (h : validateRecordsList rs = some e) :
    e = Err.invalidDocument ∨ (e = Err.typeError ∧ Json.null ∈ rs) := by
  induction rs with
  | nil => simp [validateRecordsList] at h
  | cons r t ih =>
    cases r with
    | null =>
      simp [validateRecordsList] at h
      exact Or.inr ⟨h.symm, List.mem_cons_self _ _⟩
    | bool b =>
      by_cases hc : (truthyOpt (jsGet (Json.bool b) "id") &&
          truthyOpt (jsGet (Json.bool b) "typeName")) = true
      · simp [validateRecordsList, hc] at h
        rcases ih h with h1 | ⟨h2, h3⟩
        · exact Or.inl h1
        · exact Or.inr ⟨h2, List.mem_cons_of_mem _ h3⟩
      · simp [validateRecordsList, hc] at h
        exact Or.inl h.symm
    | num n =>
      by_cases hc : (truthyOpt (jsGet (Json.num n) "id") &&
          truthyOpt (jsGet (Json.num n) "typeName")) = true
      · simp [validateRecordsList, hc] at h
        rcases ih h with h1 | ⟨h2, h3⟩
        · exact Or.inl h1
        · exact Or.inr ⟨h2, List.mem_cons_of_mem _ h3⟩
      · simp [validateRecordsList, hc] at h
        exact Or.inl h.symm
    | str s =>
      by_cases hc : (truthyOpt (jsGet (Json.str s) "id") &&
          truthyOpt (jsGet (Json.str s) "typeName")) = true
      · simp [validateRecordsList, hc] at h
        rcases ih h with h1 | ⟨h2, h3⟩
        · exact Or.inl h1
        · exact Or.inr ⟨h2, List.mem_cons_of_mem _ h3⟩
      · simp [validateRecordsList, hc] at h
        exact Or.inl h.symm
    | arr xs =>
      by_cases hc : (truthyOpt (jsGet (Json.arr xs) "id") &&
          truthyOpt (jsGet (Json.arr xs) "typeName")) = true
      · simp [validateRecordsList, hc] at h
        rcases ih h with h1 | ⟨h2, h3⟩
        · exact Or.inl h1
        · exact Or.inr ⟨h2, List.mem_cons_of_mem _ h3⟩
      · simp [validateRecordsList, hc] at h
        exact Or.inl h.symm
    | obj fs =>
      by_cases hc : (truthyOpt (jsGet (Json.obj fs) "id") &&
          truthyOpt (jsGet (Json.obj fs) "typeName")) = true
      · simp [validateRecordsList, hc] at h
        rcases ih h with h1 | ⟨h2, h3⟩
        · exact Or.inl h1
        · exact Or.inr ⟨h2, List.mem_cons_of_mem _ h3⟩
      · simp [validateRecordsList, hc] at h
        exact Or.inl h.symm

/-- Concrete input refuting claim C9: a value whose records array
contains null.  The source evaluates record.id on that element and the
runtime raises a TypeError instead of the InvalidDocument error the
claim requires for every failing input. -/
def docNullRecord : Json :=
  Json.obj
    [("tldrawFileFormatVersion", Json.num 1),
     ("schema", Json.obj []),
     ("records", Json.arr [Json.null])]

/-- Counterexample to claim C9: on a records array containing null the
validator fails with a TypeError, not with InvalidDocument. -/
theorem validator_null_record_counterexample :
    validateTldrawFile docNullRecord = Except.error Err.typeError ∧
    validateTldrawFile docNullRecord ≠ Except.error Err.invalidDocument := by
  refine ⟨rfl, ?_⟩
  intro h
  rw [show validateTldrawFile docNullRecord = Except.error Err.typeError from rfl]
    at h
  simp at h

/-- Claim C9 as amended: the validator returns its input exactly when
the spec conditions hold; otherwise it fails, with InvalidDocument in
every case except a records array containing null, where the failure is
the TypeError raised by the property access on null. -/
theorem validator_characterization (v : Json) :
    (validateTldrawFile v = Except.ok v ↔ specValidDocument v = true) ∧
    (∀ w, validateTldrawFile v = Except.ok w → w = v) ∧
    (∀ e, validateTldrawFile v = Except.error e →
      e = Err.invalidDocument ∨
      (e = Err.typeError ∧
        ∃ rs, jsGet v "records" = some (Json.arr rs) ∧ Json.null ∈ rs)) := by
  by_cases h1 : (truthy v && typeofObject v) = true
  · by_cases h2 : isNumV (jsGet v "tldrawFileFormatVersion") = true
    · by_cases h3 : (match jsGet v "schema" with
          | some s => truthy s && typeofObject s
          | none => false) = true
      · cases hr : jsGet v "records" with
        | none =>
          refine ⟨?_, ?_, ?_⟩
          · simp [validateTldrawFile, specValidDocument, h1, h2, h3, hr]
          · intro w hw
            simp [validateTldrawFile, h1, h2, h3, hr] at hw
          · intro e he
            simp [validateTldrawFile, h1, h2, h3, hr] at he
            exact Or.inl he.symm
        | some j =>
          cases j with
          | arr rs =>
            cases hv : validateRecordsList rs with
            | none =>
              refine ⟨?_, ?_, ?_⟩
              · have hall := (vrl_none_iff rs).mp hv
                simp [validateTldrawFile, specValidDocument, h1, h2, h3, hr, hv,
                  hall]
              · intro w hw
                simp [validateTldrawFile, h1, h2, h3, hr, hv] at hw
                exact hw.symm
              · intro e he
                simp [validateTldrawFile, h1, h2, h3, hr, hv] at he
            | some e0 =>
              refine ⟨?_, ?_, ?_⟩
              · have hnall : ¬ rs.all
                    (fun r => truthyOpt (jsGet r "id") &&
                      truthyOpt (jsGet r "typeName")) = true := by
                  intro hall
                  rw [(vrl_none_iff rs).mpr hall] at hv
                  exact Option.noConfusion hv
                simp [validateTldrawFile, specValidDocument, h1, h2, h3, hr, hv,
                  hnall]
              · intro w hw
                simp [validateTldrawFile, h1, h2, h3, hr, hv] at hw
              · intro e he
                simp [validateTldrawFile, h1, h2, h3, hr, hv] at he
                subst he
                rcases vrl_error rs e0 hv with hh | ⟨hh, hmem⟩
                · exact Or.inl hh
                · exact Or.inr ⟨hh, rs, rfl, hmem⟩
          | null =>
            refine ⟨?_, ?_, ?_⟩
            · simp [validateTldrawFile, specValidDocument, h1, h2, h3, hr]
            · intro w hw
              simp [validateTldrawFile, h1, h2, h3, hr] at hw
            · intro e he
              simp [validateTldrawFile, h1, h2, h3, hr] at he
              exact Or.inl he.symm
          | bool b =>
            refine ⟨?_, ?_, ?_⟩
            · simp [validateTldrawFile, specValidDocument, h1, h2, h3, hr]
            · intro w hw
              simp [validateTldrawFile, h1, h2, h3, hr] at hw
            · intro e he
              simp [validateTldrawFile, h1, h2, h3, hr] at he
              exact Or.inl he.symm
          | num n =>
            refine ⟨?_, ?_, ?_⟩
            · simp [validateTldrawFile, specValidDocument, h1, h2, h3, hr]
            · intro w hw
              simp [validateTldrawFile, h1, h2, h3, hr] at hw
            · intro e he
              simp [validateTldrawFile, h1, h2, h3, hr] at he
              exact Or.inl he.symm
          | str s =>
            refine ⟨?_, ?_, ?_⟩
            · simp [validateTldrawFile, specValidDocument, h1, h2, h3, hr]
            · intro w hw
              simp [validateTldrawFile, h1, h2, h3, hr] at hw
            · intro e he
              simp [validateTldrawFile, h1, h2, h3, hr] at he
              exact Or.inl he.symm
          | obj fs =>
            refine ⟨?_, ?_, ?_⟩
            · simp [validateTldrawFile, specValidDocument, h1, h2, h3, hr]
            · intro w hw
              simp [validateTldrawFile, h1, h2, h3, hr] at hw
            · intro e he
              simp [validateTldrawFile, h1, h2, h3, hr] at he
              exact Or.inl he.symm
      · refine ⟨?_, ?_, ?_⟩
        · simp [validateTldrawFile, specValidDocument, h1, h2, h3]
        · intro w hw
          simp [validateTldrawFile, h1, h2, h3] at hw
        · intro e he
          simp [validateTldrawFile, h1, h2, h3] at he
          exact Or.inl he.symm
    · refine ⟨?_, ?_, ?_⟩
      · simp [validateTldrawFile, specValidDocument, h1, h2]
      · intro w hw
        simp [validateTldrawFile, h1, h2] at hw
      · intro e he
        simp [validateTldrawFile, h1, h2] at he
        exact Or.inl he.symm
  · refine ⟨?_, ?_, ?_⟩
    · simp [validateTldrawFile, specValidDocument, h1]
    · intro w hw
      simp [validateTldrawFile, h1] at hw
    · intro e he
      simp [validateTldrawFile, h1] at he
      exact Or.inl he.symm

/-- Witness for the amended claim C9, applying its failure-kind clause
at the null-record input. -/
theorem validator_characterization_witness :
    Err.typeError = Err.invalidDocument ∨
    (Err.typeError = Err.typeError ∧
      ∃ rs, jsGet docNullRecord "records" = some (Json.arr rs) ∧
        Json.null ∈ rs) :=
  (validator_characterization docNullRecord).2.2 Err.typeError rfl

/-- Strict equality r.id === sid between a record field and a string, as
used by the shape lookups: a missing or non-string id never matches. -/
def recordIdIs (r : Json) (sid : String) : Bool :=
  match jsGet r "id" with
  | some (Json.str s) => decide (s = sid)
  | _ => false

/-- Strict equality r.typeName === ty, used to filter records by type. -/
def recordTypeNameIs (r : Json) (ty : String) : Bool :=
  match jsGet r "typeName" with
  | some (Json.str s) => decide (s = ty)
  | _ => false

/-- Model of Array.prototype.findIndex over the record sequence, with -1
modelled as none. -/
def findIdxRecord : List Json → String → Option Nat
  | [], _ => none
  | r :: t, sid =>
    if recordIdIs r sid then some 0 else (findIdxRecord t sid).map (· + 1)

/-- Fields produced by spreading a JSON value into an object literal.
Objects contribute their fields; null, booleans and numbers contribute
nothing.  Spreading of strings and arrays (which would contribute
index-keyed fields) is outside the modelled domain; no operation of the
program reaches it with a validated document. -/
def jsSpreadFields : Json → List (String × Json)
  | Json.obj fs => fs
  | _ => []

/-- Object spread { ...a, ...b } as the left fold of JavaScript property
assignment of the fields of b into a copy of a. -/
def objSpread : List (String × Json) → List (String × Json) → List (String × Json)
  | a, [] => a
  | a, (k, v) :: t => objSpread (setKey a k v) t

/-- One step of the update loop of tldrawUpdateShape (lines 599 to 605):
the props key with an object value merges one level deep into truthy
existing props; every other key is assigned directly. -/
def applyShapeUpdate (f : List (String × Json)) (k : String) (v : Json) :
    List (String × Json) :=
  if (decide (k = "props") && typeofObject v && truthyOpt (getF f "props")) = true
  then
    match getF f "props" with
    | some oldProps =>
      setKey f "props"
        (Json.obj (objSpread (jsSpreadFields oldProps) (jsSpreadFields v)))
    | none => setKey f k v
  else setKey f k v

/-- Left fold of the update entries over the fields of the located
record, matching the for-of loop over Object.entries(updates). -/
def foldUpdates (f : List (String × Json)) (updates : List (String × Json)) :
    List (String × Json) :=
  updates.foldl (fun acc kv => applyShapeUpdate acc kv.1 kv.2) f

/-- Model of tldrawUpdateShape (lines 585 to 610) on the record sequence
of an already decoded document; reading and persisting the file are the
surrounding tldrawRead and tldrawWrite.  A located record is always an
object because the lookup requires a string id field; the typeError arm
is unreachable on located records. -/
def tldrawUpdateShape (records : List Json) (shapeId : String)
    (updates : List (String × Json)) : Except Err (List Json) :=
  match findIdxRecord records shapeId with
  | none => Except.error Err.shapeNotFound
  | some i =>
    match records.get? i with
    | some (Json.obj f) =>
      Except.ok (records.set i (Json.obj (foldUpdates f updates)))
    | _ => Except.error Err.typeError

/-- Model of tldrawDeleteShape (lines 612 to 625) on the record sequence:
keep the records whose id differs, and fail when nothing was removed. -/
def tldrawDeleteShape (records : List Json) (shapeId : String) :
    Except Err (List Json) :=
  let filtered := records.filter (fun r => !(recordIdIs r shapeId))
  if filtered.length = records.length then Except.error Err.shapeNotFound
  else Except.ok filtered

lemma getF_none_of_not_mem (l : List (String × Json)) (k : String)
    (h : k ∉ l.map Prod.fst) : getF l k = none := by
  induction l with
  | nil => rfl
  | cons p t ih =>
    obtain ⟨k0, v0⟩ := p
    simp only [List.map_cons, List.mem_cons] at h
    push_neg at h
    have hk : ¬ k0 = k := fun hh => h.1 (Eq.symm hh)
    simp [getF, hk, ih h.2]

lemma getF_some_of_mem_nodup (l : List (String × Json)) (k : String) (v : Json)
    (hnd : (l.map Prod.fst).Nodup) (hm : (k, v) ∈ l) : getF l k = some v := by
  induction l with
  | nil => simp at hm
  | cons p t ih =>
    obtain ⟨k0, v0⟩ := p
    simp only [List.map_cons, List.nodup_cons] at hnd
    rcases List.mem_cons.mp hm with h | h
    · obtain ⟨rfl, rfl⟩ := Prod.mk.injEq _ _ _ _ ▸ h
      simp [getF]
    · have hk : k0 ≠ k := by
        intro hh
        subst hh
        exact hnd.1 (List.mem_map.mpr ⟨(k0, v), h, rfl⟩)
      simp [getF, hk, ih hnd.2 h]

lemma getF_objSpread (a b : List (String × Json)) (k : String)
    (hb : (b.map Prod.fst).Nodup) :
    getF (objSpread a b) k =
      match getF b k with
      | some v => some v
      | none => getF a k := by
  induction b generalizing a with
  | nil => simp [objSpread, getF]
  | cons p t ih =>
    obtain ⟨k0, v0⟩ := p
    simp only [List.map_cons, List.nodup_cons] at hb
    by_cases hk : k0 = k
    · subst hk
      have ht : getF t k0 = none := getF_none_of_not_mem t k0 hb.1
      simp [objSpread, ih _ hb.2, ht, getF, getF_setKey_self]
    · simp [objSpread, ih _ hb.2, getF, hk,
        getF_setKey_other a k0 v0 k (fun hh => hk (Eq.symm hh))]

lemma applyShapeUpdate_other (f : List (String × Json)) (k0 : String) (v0 : Json)
    (k : String) (h : k ≠ k0) :
    getF (applyShapeUpdate f k0 v0) k = getF f k := by
  by_cases hc : (decide (k0 = "props") && typeofObject v0 &&
      truthyOpt (getF f "props")) = true
  · have hp : k0 = "props" := by
      have hh := (Bool.and_eq_true _ _).mp ((Bool.and_eq_true _ _).mp hc).1
      exact of_decide_eq_true hh.1
    subst hp
    have hv : typeofObject v0 = true :=
      ((Bool.and_eq_true _ _).mp ((Bool.and_eq_true _ _).mp hc).1).2
    cases hfp : getF f "props" with
    | none =>
      rw [hfp] at hc
      simp [truthyOpt] at hc
    | some oldProps =>
      have htr : truthyOpt (some oldProps) = true := by
        have := ((Bool.and_eq_true _ _).mp hc).2
        rwa [hfp] at this
      simp [applyShapeUpdate, hfp, hv, htr,
        getF_setKey_other f "props" _ k h]
  · unfold applyShapeUpdate
    simp [hc, getF_setKey_other f k0 v0 k h]

lemma applyShapeUpdate_ne_props (f : List (String × Json)) (k : String) (v : Json)
    (h : k ≠ "props") : applyShapeUpdate f k v = setKey f k v := by
  unfold applyShapeUpdate
  simp [h]

lemma applyShapeUpdate_props (f : List (String × Json))
    (pu ps : List (String × Json)) (hf : getF f "props" = some (Json.obj ps)) :
    applyShapeUpdate f "props" (Json.obj pu) =
      setKey f "props" (Json.obj (objSpread ps pu)) := by
  unfold applyShapeUpdate
  simp [hf, truthyOpt, jsSpreadFields]

lemma foldUpdates_not_mem (updates : List (String × Json))
    (f : List (String × Json)) (k : String) (h : k ∉ updates.map Prod.fst) :
    getF (foldUpdates f updates) k = getF f k := by
  induction updates generalizing f with
  | nil => rfl
  | cons p t ih =>
    obtain ⟨k0, v0⟩ := p
    simp only [List.map_cons, List.mem_cons] at h
    push_neg at h
    have : foldUpdates f ((k0, v0) :: t) = foldUpdates (applyShapeUpdate f k0 v0) t := rfl
    rw [this, ih _ h.2, applyShapeUpdate_other f k0 v0 k h.1]

lemma foldUpdates_append (f : List (String × Json))
    (a b : List (String × Json)) :
    foldUpdates f (a ++ b) = foldUpdates (foldUpdates f a) b := by
  unfold foldUpdates
  exact List.foldl_append _ _ _ _

lemma recordIdIs_obj {r : Json} {sid : String} (h : recordIdIs r sid = true) :
    ∃ f, r = Json.obj f := by
  cases r with
  | obj f => exact ⟨f, rfl⟩
  | null => simp [recordIdIs, jsGet] at h
  | bool b => simp [recordIdIs, jsGet] at h
  | num n => simp [recordIdIs, jsGet] at h
  | str s => simp [recordIdIs, jsGet] at h
  | arr xs => simp [recordIdIs, jsGet] at h

lemma findIdx_none_iff (records : List Json) (sid : String) :
    findIdxRecord records sid = none ↔
      ∀ r ∈ records, recordIdIs r sid = false := by
  induction records with
  | nil => simp [findIdxRecord]
  | cons r t ih =>
    by_cases hr : recordIdIs r sid = true
    · simp [findIdxRecord, hr]
    · have hr' : recordIdIs r sid = false := Bool.eq_false_iff.mpr hr
      simp [findIdxRecord, hr', ih]

lemma findIdx_some_get (records : List Json) (sid : String) (i : Nat)
    (h : findIdxRecord records sid = some i) :
    ∃ f, records.get? i = some (Json.obj f) ∧
      recordIdIs (Json.obj f) sid = true := by
  induction records generalizing i with
  | nil => simp [findIdxRecord] at h
  | cons r t ih =>
    by_cases hr : recordIdIs r sid = true
    · simp [findIdxRecord, hr] at h
      subst h
      obtain ⟨f, rfl⟩ := recordIdIs_obj hr
      exact ⟨f, rfl, hr⟩
    · have hr' : recordIdIs r sid = false := Bool.eq_false_iff.mpr hr
      simp [findIdxRecord, hr'] at h
      obtain ⟨j, hj, rfl⟩ := h
      obtain ⟨f, hf, hid⟩ := ih j hj
      exact ⟨f, by simpa using hf, hid⟩

/-- Claim C10: updateShape and deleteShape locate their target by id
over the entire record sequence regardless of the record type tag:
whenever some record (of any typeName) carries the id, delete succeeds
with exactly the non-matching records and update succeeds; ShapeNotFound
is raised exactly when no record of any type carries the id. -/
theorem shape_ops_locate_by_identity (records : List Json) (rid : String)
    (updates : List (String × Json)) :
    ((∃ r ∈ records, recordIdIs r rid = true) →
      tldrawDeleteShape records rid =
        Except.ok (records.filter (fun r => !(recordIdIs r rid))) ∧
      (∀ r ∈ records.filter (fun r => !(recordIdIs r rid)),
        recordIdIs r rid = false) ∧
      (tldrawUpdateShape records rid updates).isOk = true) ∧
    (tldrawDeleteShape records rid = Except.error Err.shapeNotFound ↔
      ∀ r ∈ records, recordIdIs r rid = false) ∧
    (tldrawUpdateShape records rid updates = Except.error Err.shapeNotFound ↔
      ∀ r ∈ records, recordIdIs r rid = false) := by
  have hdel : tldrawDeleteShape records rid = Except.error Err.shapeNotFound ↔
      ∀ r ∈ records, recordIdIs r rid = false := by
    by_cases hlen : (records.filter (fun r => !(recordIdIs r rid))).length =
        records.length
    · have hfeq : records.filter (fun r => !(recordIdIs r rid)) = records :=
        (List.filter_sublist records).eq_of_length hlen
      constructor
      · intro _ r hr
        have := (List.filter_eq_self.mp hfeq) r hr
        simpa using this
      · intro _
        simp [tldrawDeleteShape, hlen]
    · constructor
      · intro hcon
        simp [tldrawDeleteShape, hlen] at hcon
      · intro hall
        exfalso
        apply hlen
        have hfeq : records.filter (fun r => !(recordIdIs r rid)) = records :=
          List.filter_eq_self.mpr (fun r hr => by simp [hall r hr])
        rw [hfeq]
  refine ⟨?_, hdel, ?_⟩
  · rintro ⟨r0, hr0m, hr0⟩
    have hnall : ¬ ∀ r ∈ records, recordIdIs r rid = false := by
      intro hall
      rw [hall r0 hr0m] at hr0
      exact Bool.noConfusion hr0
    have hlen : ¬ (records.filter (fun r => !(recordIdIs r rid))).length =
        records.length := by
      intro hl
      have hfeq : records.filter (fun r => !(recordIdIs r rid)) = records :=
        (List.filter_sublist records).eq_of_length hl
      apply hnall
      intro r hr
      have := (List.filter_eq_self.mp hfeq) r hr
      simpa using this
    refine ⟨by simp [tldrawDeleteShape, hlen], ?_, ?_⟩
    · intro r hr
      have := (List.mem_filter.mp hr).2
      simpa using this
    · cases hfi : findIdxRecord records rid with
      | none =>
        exact absurd ((findIdx_none_iff records rid).mp hfi) hnall
      | some i =>
        obtain ⟨f, hget, _⟩ := findIdx_some_get records rid i hfi
        have hget' : records[i]? = some (Json.obj f) := by
          rw [← List.get?_eq_getElem?]
          exact hget
        simp [tldrawUpdateShape, hfi, hget', Except.isOk, Except.toBool]
  · constructor
    · intro hcon
      cases hfi : findIdxRecord records rid with
      | none => exact (findIdx_none_iff records rid).mp hfi
      | some i =>
        obtain ⟨f, hget, _⟩ := findIdx_some_get records rid i hfi
        have hget' : records[i]? = some (Json.obj f) := by
          rw [← List.get?_eq_getElem?]
          exact hget
        rw [show tldrawUpdateShape records rid updates =
            Except.ok (records.set i (Json.obj (foldUpdates f updates))) by
          simp [tldrawUpdateShape, hfi, hget']] at hcon
        exact Except.noConfusion hcon
    · intro hall
      have hfi : findIdxRecord records rid = none :=
        (findIdx_none_iff records rid).mpr hall
      simp [tldrawUpdateShape, hfi]

/-- Concrete records for the shape repository witnesses: one page record
and one shape record with two props. -/
def pageRecSample : Json :=
  Json.obj
    [("id", Json.str "page:p1"), ("typeName", Json.str "page"),
     ("name", Json.str "Page 1")]

/-- Fields of the sample shape record. -/
def shapeRecFields : List (String × Json) :=
  [("id", Json.str "shape:s1"), ("typeName", Json.str "shape"),
   ("props",
     Json.obj [("color", Json.str "black"), ("fill", Json.str "none")])]

/-- Record sequence holding the sample page and shape. -/
def recordsSample : List Json := [pageRecSample, Json.obj shapeRecFields]

/-- Witness for claim C10: deleting and updating by the id of a page
record (a record that is not a shape) both succeed. -/
theorem shape_ops_locate_by_identity_witness :
    tldrawDeleteShape recordsSample "page:p1" =
      Except.ok (recordsSample.filter (fun r => !(recordIdIs r "page:p1"))) ∧
    (tldrawUpdateShape recordsSample "page:p1"
      [("name", Json.str "Renamed")]).isOk = true := by
  have h := (shape_ops_locate_by_identity recordsSample "page:p1"
    [("name", Json.str "Renamed")]).1
    ⟨pageRecSample, List.mem_cons_self _ _, by rfl⟩
  exact ⟨h.1, h.2.2⟩

/-- Claim C6: updateShape applies a shallow merge in which every
top-level key of updates overwrites the corresponding key of the located
record, keys absent from updates are preserved, and the props key with
an object value is merged one level deep: keys present in updates.props
overwrite, keys absent from updates.props keep the existing props value;
when no record carries the id the operation fails with ShapeNotFound. -/
theorem update_shape_merge (records : List Json) (sid : String)
    (updates : List (String × Json)) :
    ((∀ r ∈ records, recordIdIs r sid = false) →
      tldrawUpdateShape records sid updates = Except.error Err.shapeNotFound) ∧
    (∀ i f, findIdxRecord records sid = some i →
      records.get? i = some (Json.obj f) →
      ∃ f', tldrawUpdateShape records sid updates =
          Except.ok (records.set i (Json.obj f')) ∧
        (∀ k, k ∉ updates.map Prod.fst → getF f' k = getF f k) ∧
        ((updates.map Prod.fst).Nodup →
          (∀ k v, (k, v) ∈ updates → k ≠ "props" → getF f' k = some v) ∧
          (∀ pu ps, ("props", Json.obj pu) ∈ updates →
            getF f "props" = some (Json.obj ps) →
            (pu.map Prod.fst).Nodup →
            getF f' "props" = some (Json.obj (objSpread ps pu)) ∧
            (∀ pk v, (pk, v) ∈ pu → getF (objSpread ps pu) pk = some v) ∧
            (∀ pk, pk ∉ pu.map Prod.fst →
              getF (objSpread ps pu) pk = getF ps pk)))) := by
  constructor
  · intro hall
    have hfi : findIdxRecord records sid = none :=
      (findIdx_none_iff records sid).mpr hall
    simp [tldrawUpdateShape, hfi]
  · intro i f hfi hget
    have hget' : records[i]? = some (Json.obj f) := by
      rw [← List.get?_eq_getElem?]
      exact hget
    refine ⟨foldUpdates f updates, by simp [tldrawUpdateShape, hfi, hget'], ?_, ?_⟩
    · intro k hk
      exact foldUpdates_not_mem updates f k hk
    · intro hnd
      constructor
      · intro k v hm hkp
        obtain ⟨pre, post, hupd⟩ := List.append_of_mem hm
        have hkeys : (pre.map Prod.fst ++ k :: post.map Prod.fst).Nodup := by
          rw [hupd] at hnd
          simpa using hnd
        have hsplit := List.nodup_append.mp hkeys
        have hkpre : k ∉ pre.map Prod.fst := fun hmem =>
          hsplit.2.2 hmem (List.mem_cons_self _ _)
        have hkpost : k ∉ post.map Prod.fst := (List.nodup_cons.mp hsplit.2.1).1
        rw [hupd, foldUpdates_append]
        have hstep : foldUpdates (foldUpdates f pre) ((k, v) :: post) =
            foldUpdates (applyShapeUpdate (foldUpdates f pre) k v) post := rfl
        rw [hstep, foldUpdates_not_mem post _ k hkpost,
          applyShapeUpdate_ne_props _ k v hkp, getF_setKey_self]
      · intro pu ps hm hfp hpund
        obtain ⟨pre, post, hupd⟩ := List.append_of_mem hm
        have hkeys : (pre.map Prod.fst ++ "props" :: post.map Prod.fst).Nodup := by
          rw [hupd] at hnd
          simpa using hnd
        have hsplit := List.nodup_append.mp hkeys
        have hkpre : "props" ∉ pre.map Prod.fst := fun hmem =>
          hsplit.2.2 hmem (List.mem_cons_self _ _)
        have hkpost : "props" ∉ post.map Prod.fst :=
          (List.nodup_cons.mp hsplit.2.1).1
        have hprepres : getF (foldUpdates f pre) "props" = some (Json.obj ps) := by
          rw [foldUpdates_not_mem pre f "props" hkpre, hfp]
        refine ⟨?_, ?_, ?_⟩
        · rw [hupd, foldUpdates_append]
          have hstep : foldUpdates (foldUpdates f pre)
              (("props", Json.obj pu) :: post) =
              foldUpdates
                (applyShapeUpdate (foldUpdates f pre) "props" (Json.obj pu))
                post := rfl
          rw [hstep, foldUpdates_not_mem post _ "props" hkpost,
            applyShapeUpdate_props _ pu ps hprepres, getF_setKey_self]
        · intro pk v hpkm
          rw [getF_objSpread ps pu pk hpund,
            getF_some_of_mem_nodup pu pk v hpund hpkm]
        · intro pk hpk
          rw [getF_objSpread ps pu pk hpund, getF_none_of_not_mem pu pk hpk]

/-- Updates map used by the C6 witness: set props.color to red. -/
def updatesRed : List (String × Json) :=
  [("props", Json.obj [("color", Json.str "red")])]

/-- Witness for claim C6, realizing the example of the claim: updating
props with color red on existing props with color black and fill none
yields color red with fill none preserved, and the operation succeeds on
the sample records. -/
theorem update_shape_merge_witness :
    getF (objSpread [("color", Json.str "black"), ("fill", Json.str "none")]
      [("color", Json.str "red")]) "color" = some (Json.str "red") ∧
    getF (objSpread [("color", Json.str "black"), ("fill", Json.str "none")]
      [("color", Json.str "red")]) "fill" = some (Json.str "none") ∧
    (tldrawUpdateShape recordsSample "shape:s1" updatesRed).isOk = true := by
  have h := (update_shape_merge recordsSample "shape:s1" updatesRed).2 1
    shapeRecFields rfl rfl
  obtain ⟨f', hok, _, hnd⟩ := h
  have h2 := (hnd (by decide)).2 [("color", Json.str "red")]
    [("color", Json.str "black"), ("fill", Json.str "none")]
    (List.mem_cons_self _ _) rfl (by decide)
  refine ⟨h2.2.1 "color" (Json.str "red") (List.mem_cons_self _ _),
    h2.2.2 "fill" (by decide), ?_⟩
  rw [hok]
  rfl

/-- Caller-supplied shape specification: exactly the fields the source
reads from its Partial record argument. -/
structure ShapeSpec where
  id : Option String
  type : Option String
  x : Option Int
  y : Option Int
  rotation : Option Int
  props : Option Json

/-- JavaScript s1 || s2 on an optional string: a missing or empty string
falls back to the default. -/
def jsOrStr : Option String → String → String
  | some s, d => if s = "" then d else s
  | none, d => d

/-- JavaScript n || d on an optional number: missing or zero falls back
to the default (zero only falls back to itself here). -/
def jsOrInt : Option Int → Int → Int
  | some n, d => if n = 0 then d else n
  | none, d => d

/-- JavaScript v || d on an optional JSON value: missing or falsy falls
back to the default. -/
def jsOrJson : Option Json → Json → Json
  | some v, d => if truthy v then v else d
  | none, d => d

/-- Default geo shape props supplied when the spec has none (source
lines 559 to 575). -/
def defaultShapeProps : Json :=
  Json.obj
    [("w", Json.num 100), ("h", Json.num 100), ("geo", Json.str "rectangle"),
     ("color", Json.str "black"), ("labelColor", Json.str "black"),
     ("fill", Json.str "none"), ("dash", Json.str "draw"),
     ("size", Json.str "m"), ("font", Json.str "draw"),
     ("align", Json.str "middle"), ("verticalAlign", Json.str "middle"),
     ("growY", Json.num 0), ("url", Json.str ""), ("scale", Json.num 1),
     ("richText",
       Json.obj [("type", Json.str "doc"), ("content", Json.arr [])])]

/-- Number of shape-typed records, used for the ordering key. -/
def countShapeRecords (records : List Json) : Nat :=
  (records.filter (fun r => recordTypeNameIs r "shape")).length

/-- Fields of the record built by tldrawAddShape (lines 547 to 576), in
source order, with the JavaScript || defaults for omitted spec fields
and the ordering key a followed by the shape count plus one. -/
def newShapeFields (records : List Json) (spec : ShapeSpec) (uuid8 : String)
    (parent : Json) : List (String × Json) :=
  [("id", Json.str (jsOrStr spec.id ("shape:" ++ uuid8))),
   ("typeName", Json.str "shape"),
   ("type", Json.str (jsOrStr spec.type "geo")),
   ("x", Json.num (jsOrInt spec.x 0)),
   ("y", Json.num (jsOrInt spec.y 0)),
   ("rotation", Json.num (jsOrInt spec.rotation 0)),
   ("isLocked", Json.bool false),
   ("opacity", Json.num 1),
   ("parentId", parent),
   ("index", Json.str ("a" ++ toString (countShapeRecords records + 1))),
   ("meta", Json.obj []),
   ("props", jsOrJson spec.props defaultShapeProps)]

/-- Model of tldrawAddShape (lines 526 to 583) on the record sequence of
a decoded document: a truthy explicit pageId is the parent, otherwise
the first page-typed record, failing NoPages when none exists; the new
record is appended at the end and its id returned.  The uuid8 parameter
models the slice of crypto.randomUUID used when the spec omits an id. -/
def tldrawAddShape (records : List Json) (spec : ShapeSpec)
    (pageId : Option String) (uuid8 : String) :
    Except Err (List Json × String) :=
  let explicitPid : Option String :=
    match pageId with
    | some p => if p = "" then none else some p
    | none => none
  match explicitPid with
  | some p =>
    Except.ok
      (records ++ [Json.obj (newShapeFields records spec uuid8 (Json.str p))],
        jsOrStr spec.id ("shape:" ++ uuid8))
  | none =>
    match records.find? (fun r => recordTypeNameIs r "page") with
    | none => Except.error Err.noPages
    | some pg =>
      Except.ok
        (records ++
          [Json.obj
            (newShapeFields records spec uuid8 ((jsGet pg "id").getD Json.null))],
          jsOrStr spec.id ("shape:" ++ uuid8))

/-- Claim C7: addShape targets the explicit page id when a non-empty one
is given, else the first page-typed record in document order, and fails
NoPages when neither exists; with an omitted id it synthesizes one from
the fresh random identifier, fills position and rotation zero, unlocked,
opacity one, and ordering key a followed by the count of shape-typed
records before the append plus one; the record is appended at the end
and its id returned. -/
theorem add_shape_defaults (records : List Json) (spec : ShapeSpec)
    (uuid8 : String) (hid : spec.id = none) (hx : spec.x = none)
    (hy : spec.y = none) (hrot : spec.rotation = none) :
    (∀ p, p ≠ "" →
      tldrawAddShape records spec (some p) uuid8 =
        Except.ok
          (records ++ [Json.obj (newShapeFields records spec uuid8 (Json.str p))],
            "shape:" ++ uuid8)) ∧
    (∀ pg, records.find? (fun r => recordTypeNameIs r "page") = some pg →
      tldrawAddShape records spec none uuid8 =
        Except.ok
          (records ++
            [Json.obj
              (newShapeFields records spec uuid8
                ((jsGet pg "id").getD Json.null))],
            "shape:" ++ uuid8)) ∧
    ((∀ r ∈ records, recordTypeNameIs r "page" = false) →
      tldrawAddShape records spec none uuid8 = Except.error Err.noPages) ∧
    (∀ parent,
      getF (newShapeFields records spec uuid8 parent) "id" =
        some (Json.str ("shape:" ++ uuid8)) ∧
      getF (newShapeFields records spec uuid8 parent) "typeName" =
        some (Json.str "shape") ∧
      getF (newShapeFields records spec uuid8 parent) "x" =
        some (Json.num 0) ∧
      getF (newShapeFields records spec uuid8 parent) "y" =
        some (Json.num 0) ∧
      getF (newShapeFields records spec uuid8 parent) "rotation" =
        some (Json.num 0) ∧
      getF (newShapeFields records spec uuid8 parent) "isLocked" =
        some (Json.bool false) ∧
      getF (newShapeFields records spec uuid8 parent) "opacity" =
        some (Json.num 1) ∧
      getF (newShapeFields records spec uuid8 parent) "parentId" =
        some parent ∧
      getF (newShapeFields records spec uuid8 parent) "index" =
        some (Json.str ("a" ++ toString (countShapeRecords records + 1)))) := by
  refine ⟨?_, ?_, ?_, ?_⟩
  · intro p hp
    simp [tldrawAddShape, hp, hid, jsOrStr]
  · intro pg hpg
    simp [tldrawAddShape, hpg, hid, jsOrStr]
  · intro hall
    have hfind : records.find? (fun r => recordTypeNameIs r "page") = none :=
      List.find?_eq_none.mpr (fun x hx0 => by simp [hall x hx0])
    simp [tldrawAddShape, hfind]
  · intro parent
    refine ⟨?_, rfl, ?_, ?_, ?_, rfl, rfl, rfl, rfl⟩
    · simp [newShapeFields, getF, hid, jsOrStr]
    · simp [newShapeFields, getF, hx, jsOrInt]
    · simp [newShapeFields, getF, hy, jsOrInt]
    · simp [newShapeFields, getF, hrot, jsOrInt]

/-- Shape spec with every field omitted, for the C7 witness. -/
def emptySpec : ShapeSpec := ⟨none, none, none, none, none, none⟩

/-- Witness for claim C7: adding a shape with an empty spec and no page
id to the sample records targets the sample page, appends at the end,
returns the synthesized id, and uses ordering key a2 since one shape
record precedes the append. -/
theorem add_shape_defaults_witness :
    tldrawAddShape recordsSample emptySpec none "abc12345" =
      Except.ok
        (recordsSample ++
          [Json.obj
            (newShapeFields recordsSample emptySpec "abc12345"
              ((jsGet pageRecSample "id").getD Json.null))],
          "shape:" ++ "abc12345") ∧
    getF (newShapeFields recordsSample emptySpec "abc12345"
        ((jsGet pageRecSample "id").getD Json.null)) "index" =
      some (Json.str ("a" ++ toString (countShapeRecords recordsSample + 1))) ∧
    ("a" ++ toString (countShapeRecords recordsSample + 1)) = "a2" ∧
    (jsGet pageRecSample "id").getD Json.null = Json.str "page:p1" := by
  have h := add_shape_defaults recordsSample emptySpec "abc12345" rfl rfl rfl rfl
  exact ⟨h.2.1 pageRecSample rfl,
    (h.2.2.2 ((jsGet pageRecSample "id").getD Json.null)).2.2.2.2.2.2.2.2,
    by decide, rfl⟩

/-- Caller-supplied path, modelled after splitting on the separator: an
absolute flag plus the segment list.  This is the POSIX model of the
node path library the sandbox builds on. -/
structure JsPath where
  isAbs : Bool
  segs : List String

/-- Normalization of an absolute path by node path.resolve: empty and
dot segments vanish, a parent segment pops the last kept segment and at
the root is dropped. -/
def normAbsSegs (segs : List String) : List String :=
  segs.foldl
    (fun acc s =>
      if s = "" ∨ s = "." then acc
      else if s = ".." then acc.dropLast
      else acc ++ [s])
    []

/-- Length of the longest common segment prefix of two paths. -/
def commonPrefixLen : List String → List String → Nat
  | a :: as, b :: bs => if a = b then commonPrefixLen as bs + 1 else 0
  | _, _ => 0

/-- Model of node path.relative on two normalized absolute paths: one
parent segment per remaining segment of the source, then the remaining
segments of the target. -/
def jsRelative (fromSegs toSegs : List String) : List String :=
  List.replicate (fromSegs.length - commonPrefixLen fromSegs toSegs) ".." ++
    toSegs.drop (commonPrefixLen fromSegs toSegs)

/-- The startsWith check of the source on the joined relative path: the
joined string starts with two dots exactly when the first segment starts
with two dots, since segments never contain the separator. -/
def relStartsDotDot : List String → Bool
  | [] => false
  | s :: _ =>
    match s.data with
    | '.' :: '.' :: _ => true
    | _ => false

/-- The isAbsolute check of the source on the joined relative path: on
the POSIX model a joined segment list is absolute only if its first
segment starts with the separator, which split segments never do. -/
def relIsAbs : List String → Bool
  | [] => false
  | s :: _ =>
    match s.data with
    | '/' :: _ => true
    | _ => false

/-- Model of securePath (src/src/index.ts lines 74 to 92): an absolute
input is resolved and returned with no check against the root; a
relative input is resolved against the root and rejected with
PathTraversal when the relative-to-root form starts with two dots or is
itself absolute. -/
def securePath (root : List String) (p : JsPath) : Except Err (List String) :=
  let baseDir := normAbsSegs root
  let targetPath :=
    if p.isAbs then normAbsSegs p.segs else normAbsSegs (baseDir ++ p.segs)
  if p.isAbs then Except.ok targetPath
  else
    let relativePath := jsRelative baseDir targetPath
    if (relStartsDotDot relativePath || relIsAbs relativePath) = true then
      Except.error Err.pathTraversal
    else Except.ok targetPath

lemma relStartsDotDot_of_head (rel : List String) (h : rel.headD "" = "..") :
    relStartsDotDot rel = true := by
  cases rel with
  | nil =>
    simp [List.headD] at h
  | cons s t =>
    simp [List.headD] at h
    subst h
    rfl

/-- Claim C8: a relative path whose resolution against the root has a
relative-to-root form beginning with a parent-directory segment, or one
that is itself absolute, fails with PathTraversal; an absolute path is
accepted resolved, without any check against the root, for every root. -/
theorem secure_path_sandbox (root : List String) (p : JsPath) :
    (p.isAbs = true → securePath root p = Except.ok (normAbsSegs p.segs)) ∧
    (p.isAbs = false →
      ((jsRelative (normAbsSegs root)
          (normAbsSegs (normAbsSegs root ++ p.segs))).headD "" = ".." ∨
        relIsAbs (jsRelative (normAbsSegs root)
          (normAbsSegs (normAbsSegs root ++ p.segs))) = true) →
      securePath root p = Except.error Err.pathTraversal) := by
  constructor
  · intro habs
    simp [securePath, habs]
  · intro hrel hcond
    have hor : (relStartsDotDot (jsRelative (normAbsSegs root)
        (normAbsSegs (normAbsSegs root ++ p.segs))) ||
        relIsAbs (jsRelative (normAbsSegs root)
          (normAbsSegs (normAbsSegs root ++ p.segs)))) = true := by
      rcases hcond with h | h
      · simp [relStartsDotDot_of_head _ h]
      · simp [h]
    simp [securePath, hrel, hor]

/-- Witness for claim C8: under root home u tldraw, the relative path
with a leading parent segment is rejected, and an absolute path to etc
passwd is accepted for the same root. -/
theorem secure_path_sandbox_witness :
    securePath ["home", "u", "tldraw"] ⟨false, ["..", "secret"]⟩ =
      Except.error Err.pathTraversal ∧
    securePath ["home", "u", "tldraw"] ⟨true, ["etc", "passwd"]⟩ =
      Except.ok ["etc", "passwd"] := by
  constructor
  · exact (secure_path_sandbox ["home", "u", "tldraw"]
      ⟨false, ["..", "secret"]⟩).2 rfl (Or.inl (by decide))
  · exact ((secure_path_sandbox ["home", "u", "tldraw"]
      ⟨true, ["etc", "passwd"]⟩).1 rfl).trans rfl

/-- Fixed literal start marker of an embedded block. -/
def MARKDOWN_TLDRAW_START_MARKER : String :=
  "!!!_START_OF_TLDRAW_DATA__DO_NOT_CHANGE_THIS_PHRASE_!!!"

/-- Fixed literal end marker of an embedded block. -/
def MARKDOWN_TLDRAW_END_MARKER : String :=
  "!!!_END_OF_TLDRAW_DATA__DO_NOT_CHANGE_THIS_PHRASE_!!!"

/-- Start marker as a character sequence. -/
def startMarkerChars : List Char := MARKDOWN_TLDRAW_START_MARKER.data

/-- End marker as a character sequence. -/
def endMarkerChars : List Char := MARKDOWN_TLDRAW_END_MARKER.data

/-- Index of the first occurrence of pat in the haystack, as
String.prototype.indexOf with -1 modelled as none. -/
def firstMatch (pat : List Char) : List Char → Option Nat
  | [] => if pat.isPrefixOf ([] : List Char) then some 0 else none
  | c :: t =>
    if pat.isPrefixOf (c :: t) then some 0 else (firstMatch pat t).map (· + 1)

/-- Index of the first occurrence of pat at or after position start, as
indexOf with a start position. -/
def idxOfFrom (hay pat : List Char) (start : Nat) : Option Nat :=
  (firstMatch pat (hay.drop start)).map (· + start)

/-- The pattern occurs at position i of the haystack. -/
def occursAt (hay pat : List Char) (i : Nat) : Prop :=
  pat.isPrefixOf (hay.drop i) = true

instance (hay pat : List Char) (i : Nat) : Decidable (occursAt hay pat i) := by
  unfold occursAt
  infer_instance

/-- Whitespace removed by String.prototype.trim. -/
def isJsTrimWs (c : Char) : Bool :=
  c = ' ' || c = '\t' || c = '\n' || c = '\r' || c = '\x0b' || c = '\x0c' ||
  c = ' ' || c = ' ' || c = ' ' || c = ' ' ||
  c = ' ' || c = ' ' || c = ' ' || c = ' ' ||
  c = ' ' || c = ' ' || c = ' ' || c = ' ' ||
  c = ' ' || c = ' ' || c = ' ' || c = ' ' ||
  c = ' ' || c = '　' || c = '﻿'

/-- Model of String.prototype.trim on a character sequence. -/
def jsTrim (cs : List Char) : List Char :=
  ((cs.dropWhile isJsTrimWs).reverse.dropWhile isJsTrimWs).reverse

/-- Location of the embedded JSON payload inside a text file: start and
end offsets of the region between the markers, and the trimmed text. -/
structure MarkdownTldrawBlock where
  jsonStart : Nat
  jsonEnd : Nat
  jsonText : List Char
deriving DecidableEq, Repr

/-- Model of locateMarkdownTldrawBlock (lines 144 to 191): the first
start marker, no second start marker after it, the first end marker
after the start marker, no further end marker after that one, and a
nonempty trimmed region in between. -/
def locateMarkdownTldrawBlock (md : List Char) : Except Err MarkdownTldrawBlock :=
  match firstMatch startMarkerChars md with
  | none => Except.error Err.missingBlock
  | some s =>
    match idxOfFrom md startMarkerChars (s + startMarkerChars.length) with
    | some _ => Except.error Err.duplicateBlock
    | none =>
      match idxOfFrom md endMarkerChars (s + startMarkerChars.length) with
      | none => Except.error Err.missingBlock
      | some e =>
        match idxOfFrom md endMarkerChars (e + endMarkerChars.length) with
        | some _ => Except.error Err.duplicateBlock
        | none =>
          if jsTrim ((md.drop (s + startMarkerChars.length)).take
              (e - (s + startMarkerChars.length))) = [] then
            Except.error Err.emptyBlock
          else
            Except.ok ⟨s + startMarkerChars.length, e,
              jsTrim ((md.drop (s + startMarkerChars.length)).take
                (e - (s + startMarkerChars.length)))⟩

lemma prefixOf_iff_append (pat l : List Char) :
    pat.isPrefixOf l = true ↔ ∃ t, l = pat ++ t := by
  induction pat generalizing l with
  | nil =>
    simp [List.isPrefixOf]
  | cons c p ih =>
    cases l with
    | nil =>
      simp [List.isPrefixOf]
    | cons d m =>
      simp only [List.isPrefixOf, Bool.and_eq_true, beq_iff_eq]
      constructor
      · rintro ⟨rfl, hp⟩
        obtain ⟨t, rfl⟩ := (ih m).mp hp
        exact ⟨t, rfl⟩
      · rintro ⟨t, ht⟩
        rw [List.cons_append] at ht
        obtain ⟨rfl, rfl⟩ := List.cons.injEq _ _ _ _ ▸ ht
        exact ⟨rfl, (ih _).mpr ⟨t, rfl⟩⟩

lemma firstMatch_some_iff (pat hay : List Char) (i : Nat) :
    firstMatch pat hay = some i ↔
      (occursAt hay pat i ∧ ∀ j, j < i → ¬ occursAt hay pat j) := by
  induction hay generalizing i with
  | nil =>
    have hfm : firstMatch pat ([] : List Char) =
        if pat.isPrefixOf ([] : List Char) then some 0 else none := rfl
    by_cases hp : pat.isPrefixOf ([] : List Char) = true
    · rw [hfm, if_pos hp]
      have hocc : ∀ k, occursAt ([] : List Char) pat k := by
        intro k
        unfold occursAt
        rw [List.drop_nil]
        exact hp
      constructor
      · intro h
        have hh : (0 : Nat) = i := Option.some.inj h
        subst hh
        exact ⟨hocc 0, fun j hj => absurd hj (Nat.not_lt_zero j)⟩
      · rintro ⟨_, hmin⟩
        cases i with
        | zero => rfl
        | succ n => exact absurd (hocc 0) (hmin 0 (Nat.succ_pos n))
    · rw [hfm, if_neg hp]
      constructor
      · intro h
        exact Option.noConfusion h
      · rintro ⟨h, _⟩
        unfold occursAt at h
        rw [List.drop_nil] at h
        exact absurd h hp
  | cons c t ih =>
    have hfm : firstMatch pat (c :: t) =
        if pat.isPrefixOf (c :: t) then some 0
        else (firstMatch pat t).map (· + 1) := rfl
    by_cases hp : pat.isPrefixOf (c :: t) = true
    · rw [hfm, if_pos hp]
      have h0 : occursAt (c :: t) pat 0 := by
        unfold occursAt
        rw [List.drop_zero]
        exact hp
      constructor
      · intro h
        have hh : (0 : Nat) = i := Option.some.inj h
        subst hh
        exact ⟨h0, fun j hj => absurd hj (Nat.not_lt_zero j)⟩
      · rintro ⟨_, hmin⟩
        cases i with
        | zero => rfl
        | succ n => exact absurd h0 (hmin 0 (Nat.succ_pos n))
    · rw [hfm, if_neg hp]
      have h0 : ¬ occursAt (c :: t) pat 0 := by
        unfold occursAt
        rw [List.drop_zero]
        exact hp
      have hshift : ∀ k, occursAt (c :: t) pat (k + 1) ↔ occursAt t pat k := by
        intro k
        unfold occursAt
        rw [List.drop_succ_cons]
      cases i with
      | zero =>
        constructor
        · intro h
          obtain ⟨m, _, hm1⟩ := Option.map_eq_some'.mp h
          have hm2 : m + 1 = 0 := hm1
          omega
        · rintro ⟨h, _⟩
          exact absurd h h0
      | succ n =>
        constructor
        · intro h
          obtain ⟨m, hm, hm1⟩ := Option.map_eq_some'.mp h
          have hm2 : m + 1 = n + 1 := hm1
          have hmeq : m = n := by omega
          rw [hmeq] at hm
          obtain ⟨hoccn, hminn⟩ := (ih n).mp hm
          refine ⟨(hshift n).mpr hoccn, ?_⟩
          intro j hj
          cases j with
          | zero => exact h0
          | succ k =>
            intro hk
            exact hminn k (by omega) ((hshift k).mp hk)
        · rintro ⟨hocc, hmin⟩
          have hm : firstMatch pat t = some n := by
            apply (ih n).mpr
            refine ⟨(hshift n).mp hocc, ?_⟩
            intro k hk hck
            exact hmin (k + 1) (by omega) ((hshift k).mpr hck)
          rw [hm]
          rfl

lemma firstMatch_none_iff (pat hay : List Char) :
    firstMatch pat hay = none ↔ ∀ i, ¬ occursAt hay pat i := by
  induction hay with
  | nil =>
    have hfm : firstMatch pat ([] : List Char) =
        if pat.isPrefixOf ([] : List Char) then some 0 else none := rfl
    by_cases hp : pat.isPrefixOf ([] : List Char) = true
    · rw [hfm, if_pos hp]
      constructor
      · intro h
        exact Option.noConfusion h
      · intro h
        exfalso
        apply h 0
        unfold occursAt
        rw [List.drop_nil]
        exact hp
    · rw [hfm, if_neg hp]
      constructor
      · intro _ i hi
        unfold occursAt at hi
        rw [List.drop_nil] at hi
        exact hp hi
      · intro _
        rfl
  | cons c t ih =>
    have hfm : firstMatch pat (c :: t) =
        if pat.isPrefixOf (c :: t) then some 0
        else (firstMatch pat t).map (· + 1) := rfl
    by_cases hp : pat.isPrefixOf (c :: t) = true
    · rw [hfm, if_pos hp]
      constructor
      · intro h
        exact Option.noConfusion h
      · intro h
        exfalso
        apply h 0
        unfold occursAt
        rw [List.drop_zero]
        exact hp
    · rw [hfm, if_neg hp]
      have hshift : ∀ k, occursAt (c :: t) pat (k + 1) ↔ occursAt t pat k := by
        intro k
        unfold occursAt
        rw [List.drop_succ_cons]
      rw [Option.map_eq_none', ih]
      constructor
      · intro h i
        cases i with
        | zero =>
          unfold occursAt
          rw [List.drop_zero]
          exact hp
        | succ k =>
          intro hk
          exact h k ((hshift k).mp hk)
      · intro h k hk
        exact h (k + 1) ((hshift k).mpr hk)

lemma idxOfFrom_none_iff (hay pat : List Char) (start : Nat) :
    idxOfFrom hay pat start = none ↔
      ∀ j, start ≤ j → ¬ occursAt hay pat j := by
  unfold idxOfFrom
  rw [Option.map_eq_none', firstMatch_none_iff]
  have hshift : ∀ k, occursAt (hay.drop start) pat k ↔ occursAt hay pat (start + k) := by
    intro k
    unfold occursAt
    rw [List.drop_drop]
  constructor
  · intro h j hj hocc
    apply h (j - start)
    rw [hshift]
    rwa [show start + (j - start) = j by omega]
  · intro h k hk
    exact h (start + k) (by omega) ((hshift k).mp hk)

lemma idxOfFrom_some_iff (hay pat : List Char) (start i : Nat) :
    idxOfFrom hay pat start = some i ↔
      (start ≤ i ∧ occursAt hay pat i ∧
        ∀ j, start ≤ j → j < i → ¬ occursAt hay pat j) := by
  unfold idxOfFrom
  have hshift : ∀ k, occursAt (hay.drop start) pat k ↔ occursAt hay pat (start + k) := by
    intro k
    unfold occursAt
    rw [List.drop_drop]
  constructor
  · intro h
    simp only [Option.map_eq_some'] at h
    obtain ⟨m, hm, rfl⟩ := h
    obtain ⟨hocc, hmin⟩ := (firstMatch_some_iff pat _ m).mp hm
    refine ⟨by omega, by rw [show m + start = start + m by omega]; exact (hshift m).mp hocc, ?_⟩
    intro j hj1 hj2 hocj
    apply hmin (j - start) (by omega)
    rw [hshift]
    rwa [show start + (j - start) = j by omega]
  · rintro ⟨hle, hocc, hmin⟩
    have hm : firstMatch pat (hay.drop start) = some (i - start) := by
      apply (firstMatch_some_iff pat _ (i - start)).mpr
      refine ⟨?_, ?_⟩
      · rw [hshift]
        rwa [show start + (i - start) = i by omega]
      · intro k hk hock
        exact hmin (start + k) (by omega) (by omega) ((hshift k).mp hock)
    simp only [Option.map_eq_some']
    exact ⟨i - start, hm, by omega⟩

lemma occursAt_decomp (hay pat : List Char) (i : Nat) (h : occursAt hay pat i) :
    hay = hay.take i ++ pat ++ hay.drop (i + pat.length) := by
  unfold occursAt at h
  obtain ⟨t, ht⟩ := (prefixOf_iff_append pat _).mp h
  have hdrop : hay.drop (i + pat.length) = t := by
    rw [← List.drop_drop, ht, List.drop_left]
  rw [hdrop, List.append_assoc, ← ht, List.take_append_drop]

/-- Claim C5 as amended: locating the embedded block fails MissingBlock
when the start marker never occurs, or when no end marker occurs at or
after the end of the first start marker; it fails DuplicateBlock when
the start marker occurs again after its first occurrence, or when the
end marker occurs again after the first end marker that follows the
start marker; it fails EmptyBlock when the region between the markers is
empty after trimming, and otherwise returns the trimmed region.  End
markers occurring strictly before the start marker are not detected by
any of these checks. -/
theorem markdown_block_location (md : List Char) :
    ((∀ i, ¬ occursAt md startMarkerChars i) →
      locateMarkdownTldrawBlock md = Except.error Err.missingBlock) ∧
    (∀ s, occursAt md startMarkerChars s →
      (∀ j, j < s → ¬ occursAt md startMarkerChars j) →
      ((∃ j, s + startMarkerChars.length ≤ j ∧ occursAt md startMarkerChars j) →
        locateMarkdownTldrawBlock md = Except.error Err.duplicateBlock) ∧
      ((∀ j, s + startMarkerChars.length ≤ j →
          ¬ occursAt md startMarkerChars j) →
        ((∀ j, s + startMarkerChars.length ≤ j →
            ¬ occursAt md endMarkerChars j) →
          locateMarkdownTldrawBlock md = Except.error Err.missingBlock) ∧
        (∀ e, s + startMarkerChars.length ≤ e → occursAt md endMarkerChars e →
          (∀ j, s + startMarkerChars.length ≤ j → j < e →
            ¬ occursAt md endMarkerChars j) →
          ((∃ j, e + endMarkerChars.length ≤ j ∧
              occursAt md endMarkerChars j) →
            locateMarkdownTldrawBlock md = Except.error Err.duplicateBlock) ∧
          ((∀ j, e + endMarkerChars.length ≤ j →
              ¬ occursAt md endMarkerChars j) →
            (jsTrim ((md.drop (s + startMarkerChars.length)).take
                (e - (s + startMarkerChars.length))) = [] →
              locateMarkdownTldrawBlock md = Except.error Err.emptyBlock) ∧
            (jsTrim ((md.drop (s + startMarkerChars.length)).take
                (e - (s + startMarkerChars.length))) ≠ [] →
              locateMarkdownTldrawBlock md =
                Except.ok ⟨s + startMarkerChars.length, e,
                  jsTrim ((md.drop (s + startMarkerChars.length)).take
                    (e - (s + startMarkerChars.length)))⟩))))) := by
  constructor
  · intro h
    have hfm : firstMatch startMarkerChars md = none :=
      (firstMatch_none_iff _ _).mpr h
    simp [locateMarkdownTldrawBlock, hfm]
  · intro s hs hsmin
    have hfm : firstMatch startMarkerChars md = some s :=
      (firstMatch_some_iff _ _ _).mpr ⟨hs, hsmin⟩
    constructor
    · rintro ⟨j, hjle, hjocc⟩
      cases hdx : idxOfFrom md startMarkerChars (s + startMarkerChars.length) with
      | none => exact absurd hjocc ((idxOfFrom_none_iff _ _ _).mp hdx j hjle)
      | some u => simp [locateMarkdownTldrawBlock, hfm, hdx]
    · intro hnodup
      have hdx : idxOfFrom md startMarkerChars (s + startMarkerChars.length) =
          none := (idxOfFrom_none_iff _ _ _).mpr hnodup
      constructor
      · intro hnoend
        have hde : idxOfFrom md endMarkerChars (s + startMarkerChars.length) =
            none := (idxOfFrom_none_iff _ _ _).mpr hnoend
        simp [locateMarkdownTldrawBlock, hfm, hdx, hde]
      · intro e hele heocc hemin
        have hde : idxOfFrom md endMarkerChars (s + startMarkerChars.length) =
            some e := (idxOfFrom_some_iff _ _ _ _).mpr ⟨hele, heocc, hemin⟩
        constructor
        · rintro ⟨j, hjle, hjocc⟩
          cases hdd : idxOfFrom md endMarkerChars (e + endMarkerChars.length) with
          | none => exact absurd hjocc ((idxOfFrom_none_iff _ _ _).mp hdd j hjle)
          | some u => simp [locateMarkdownTldrawBlock, hfm, hdx, hde, hdd]
        · intro hnodupe
          have hdd : idxOfFrom md endMarkerChars (e + endMarkerChars.length) =
              none := (idxOfFrom_none_iff _ _ _).mpr hnodupe
          constructor
          · intro htr
            simp [locateMarkdownTldrawBlock, hfm, hdx, hde, hdd, htr]
          · intro htr
            simp [locateMarkdownTldrawBlock, hfm, hdx, hde, hdd, htr]

/-- Text refuting claim C5 as stated: an end marker before the start
marker, then a start marker, a one-character payload, and the end
marker again. -/
def mdDupEnd : List Char :=
  endMarkerChars ++ startMarkerChars ++ ['x'] ++ endMarkerChars

/-- Counterexample to claim C5: the end delimiter occurs twice in the
file (at position zero and after the payload), yet the block location
succeeds instead of failing with DuplicateBlock. -/
theorem markdown_dup_end_counterexample :
    (locateMarkdownTldrawBlock mdDupEnd).isOk = true ∧
    occursAt mdDupEnd endMarkerChars 0 ∧
    occursAt mdDupEnd endMarkerChars
      (endMarkerChars.length + startMarkerChars.length + 1) ∧
    endMarkerChars.length + startMarkerChars.length + 1 ≠ 0 := by
  refine ⟨by decide, by decide, by decide, by decide⟩

/-- Text with exactly one well-formed embedded block for the C5
witness. -/
def mdOneBlock : List Char := startMarkerChars ++ ['x'] ++ endMarkerChars

/-- Witness for the amended claim C5 at a file with one well-formed
block around a one-character payload. -/
theorem markdown_block_location_witness :
    locateMarkdownTldrawBlock mdOneBlock =
      Except.ok ⟨0 + startMarkerChars.length, startMarkerChars.length + 1,
        jsTrim ((mdOneBlock.drop (0 + startMarkerChars.length)).take
          (startMarkerChars.length + 1 - (0 + startMarkerChars.length)))⟩ ∧
    jsTrim ((mdOneBlock.drop (0 + startMarkerChars.length)).take
      (startMarkerChars.length + 1 - (0 + startMarkerChars.length))) = ['x'] := by
  refine ⟨?_, by decide⟩
  have h := (markdown_block_location mdOneBlock).2 0 (by decide)
    (fun j hj => absurd hj (Nat.not_lt_zero j))
  have h2 := h.2 ((idxOfFrom_none_iff mdOneBlock startMarkerChars
    (0 + startMarkerChars.length)).mp (by decide))
  have h3 := h2.2 (startMarkerChars.length + 1) (by decide) (by decide)
    ((idxOfFrom_some_iff mdOneBlock endMarkerChars (0 + startMarkerChars.length)
      (startMarkerChars.length + 1)).mp (by decide)).2.2
  exact (h3.2 ((idxOfFrom_none_iff mdOneBlock endMarkerChars
    (startMarkerChars.length + 1 + endMarkerChars.length)).mp (by decide))).2
    (by decide)

/-- Lowercase hexadecimal digit for escape sequences. -/
def hexDigit (n : Nat) : Char :=
  if n < 10 then Char.ofNat (48 + n) else Char.ofNat (87 + n)

/-- Escape of one character inside a JSON string literal, as done by
JSON.stringify: quote, backslash, the short control escapes, and a
unicode escape for the remaining control characters. -/
def jsonEscapeChar (c : Char) : List Char :=
  if c = '"' then ['\\', '"']
  else if c = '\\' then ['\\', '\\']
  else if c = '\x08' then ['\\', 'b']
  else if c = '\t' then ['\\', 't']
  else if c = '\n' then ['\\', 'n']
  else if c = '\x0c' then ['\\', 'f']
  else if c = '\r' then ['\\', 'r']
  else if c.toNat < 32 then
    ['\\', 'u', '0', '0', hexDigit (c.toNat / 16), hexDigit (c.toNat % 16)]
  else [c]

/-- Escape of a whole string body. -/
def jsonEscape (s : List Char) : List Char :=
  (s.map jsonEscapeChar).flatten

/-- Join of rendered items with a separator. -/
def joinSep : List (List Char) → List Char → List Char
  | [], _ => []
  | [x], _ => x
  | x :: y :: t, sep => x ++ sep ++ joinSep (y :: t) sep

mutual

/-- Model of JSON.stringify(v, null, 2) producing the character
sequence, with the two-space pretty printing of the runtime; ind is the
current indentation width. -/
def jsonStringifyChars : Json → Nat → List Char
  | Json.null, _ => "null".data
  | Json.bool true, _ => "true".data
  | Json.bool false, _ => "false".data
  | Json.num n, _ => (toString n).data
  | Json.str s, _ => '"' :: (jsonEscape s.data ++ ['"'])
  | Json.arr [], _ => ['[', ']']
  | Json.arr (x :: xs), ind =>
    '[' :: '\n' ::
      (joinSep ((jsonStringifyArr (x :: xs) (ind + 2)).map
          (fun item => List.replicate (ind + 2) ' ' ++ item))
        (',' :: ['\n']) ++
        '\n' :: (List.replicate ind ' ' ++ [']']))
  | Json.obj [], _ => ['{', '}']
  | Json.obj (f :: fs), ind =>
    '{' :: '\n' ::
      (joinSep ((jsonStringifyObj (f :: fs) (ind + 2)).map
          (fun item => List.replicate (ind + 2) ' ' ++ item))
        (',' :: ['\n']) ++
        '\n' :: (List.replicate ind ' ' ++ ['}']))

/-- Rendered elements of an array. -/
def jsonStringifyArr : List Json → Nat → List (List Char)
  | [], _ => []
  | x :: xs, ind => jsonStringifyChars x ind :: jsonStringifyArr xs ind

/-- Rendered members of an object, key colon space value. -/
def jsonStringifyObj : List (String × Json) → Nat → List (List Char)
  | [], _ => []
  | (k, v) :: fs, ind =>
    ('"' :: (jsonEscape k.data ++ '"' :: ':' :: ' ' :: jsonStringifyChars v ind)) ::
      jsonStringifyObj fs ind

end

/-- Whitespace skipped by JSON.parse between tokens. -/
def skipJsonWs (cs : List Char) : List Char :=
  cs.dropWhile (fun c => c = ' ' || c = '\t' || c = '\n' || c = '\r')

/-- Value of a hexadecimal digit. -/
def hexVal (c : Char) : Option Nat :=
  if '0' ≤ c ∧ c ≤ '9' then some (c.toNat - 48)
  else if 'a' ≤ c ∧ c ≤ 'f' then some (c.toNat - 87)
  else if 'A' ≤ c ∧ c ≤ 'F' then some (c.toNat - 55)
  else none

/-- Body of a JSON string literal after the opening quote: the decoded
characters and the remainder after the closing quote.  Unpaired
surrogate escapes are rejected rather than modelled. -/
def jsonParseStr : List Char → Option (List Char × List Char)
  | [] => none
  | '"' :: rest => some ([], rest)
  | '\\' :: 'u' :: a :: b :: c :: d :: rest =>
    (match hexVal a, hexVal b, hexVal c, hexVal d with
     | some ha, some hb, some hc, some hd =>
       let code := ((ha * 16 + hb) * 16 + hc) * 16 + hd
       if 55296 ≤ code ∧ code < 57344 then none
       else (jsonParseStr rest).map (fun p => (Char.ofNat code :: p.1, p.2))
     | _, _, _, _ => none)
  | '\\' :: e :: rest =>
    (match e with
     | '"' => (jsonParseStr rest).map (fun p => ('"' :: p.1, p.2))
     | '\\' => (jsonParseStr rest).map (fun p => ('\\' :: p.1, p.2))
     | '/' => (jsonParseStr rest).map (fun p => ('/' :: p.1, p.2))
     | 'b' => (jsonParseStr rest).map (fun p => ('\x08' :: p.1, p.2))
     | 'f' => (jsonParseStr rest).map (fun p => ('\x0c' :: p.1, p.2))
     | 'n' => (jsonParseStr rest).map (fun p => ('\n' :: p.1, p.2))
     | 'r' => (jsonParseStr rest).map (fun p => ('\r' :: p.1, p.2))
     | 't' => (jsonParseStr rest).map (fun p => ('\t' :: p.1, p.2))
     | _ => none)
  | c :: rest =>
    if c.toNat < 32 then none
    else (jsonParseStr rest).map (fun p => (c :: p.1, p.2))

/-- Accumulation of decimal digits. -/
def digitsLoop (acc : Nat) : List Char → Nat × List Char
  | [] => (acc, [])
  | c :: rest =>
    if c.isDigit then digitsLoop (acc * 10 + (c.toNat - 48)) rest
    else (acc, c :: rest)

mutual

/-- Model of JSON.parse restricted to integer numbers, by recursion on a
fuel bound; parses one value and returns the remainder. -/
def jsonParseVal : Nat → List Char → Option (Json × List Char)
  | 0, _ => none
  | fuel + 1, cs =>
    match skipJsonWs cs with
    | [] => none
    | c :: rest =>
      if c = 'n' then
        match rest with
        | 'u' :: 'l' :: 'l' :: r => some (Json.null, r)
        | _ => none
      else if c = 't' then
        match rest with
        | 'r' :: 'u' :: 'e' :: r => some (Json.bool true, r)
        | _ => none
      else if c = 'f' then
        match rest with
        | 'a' :: 'l' :: 's' :: 'e' :: r => some (Json.bool false, r)
        | _ => none
      else if c = '"' then
        (jsonParseStr rest).map (fun p => (Json.str (String.mk p.1), p.2))
      else if c = '-' then
        match rest with
        | d :: r2 =>
          if d.isDigit then
            let pr := digitsLoop (d.toNat - 48) r2
            some (Json.num (-(pr.1 : Int)), pr.2)
          else none
        | [] => none
      else if c.isDigit then
        let pr := digitsLoop (c.toNat - 48) rest
        some (Json.num (pr.1 : Int), pr.2)
      else if c = '[' then
        match skipJsonWs rest with
        | ']' :: r => some (Json.arr [], r)
        | _ => (jsonParseItems fuel rest).map (fun p => (Json.arr p.1, p.2))
      else if c = '{' then
        match skipJsonWs rest with
        | '}' :: r => some (Json.obj [], r)
        | _ => (jsonParseMembers fuel rest).map (fun p => (Json.obj p.1, p.2))
      else none

/-- Elements of a nonempty array after the opening bracket. -/
def jsonParseItems : Nat → List Char → Option (List Json × List Char)
  | 0, _ => none
  | fuel + 1, cs =>
    match jsonParseVal fuel cs with
    | none => none
    | some (v, rest) =>
      match skipJsonWs rest with
      | ',' :: r2 => (jsonParseItems fuel r2).map (fun p => (v :: p.1, p.2))
      | ']' :: r2 => some ([v], r2)
      | _ => none

/-- Members of a nonempty object after the opening brace. -/
def jsonParseMembers : Nat → List Char → Option (List (String × Json) × List Char)
  | 0, _ => none
  | fuel + 1, cs =>
    match skipJsonWs cs with
    | '"' :: r =>
      (match jsonParseStr r with
       | none => none
       | some (k, r2) =>
         match skipJsonWs r2 with
         | ':' :: r3 =>
           (match jsonParseVal fuel r3 with
            | none => none
            | some (v, r4) =>
              match skipJsonWs r4 with
              | ',' :: r5 =>
                (jsonParseMembers fuel r5).map
                  (fun p => ((String.mk k, v) :: p.1, p.2))
              | '}' :: r5 => some ([(String.mk k, v)], r5)
              | _ => none)
         | _ => none)
    | _ => none

end

/-- Model of parseJsonContent over a character sequence: the external
JSON.parse with failures mapped to a unit error. -/
def jsonParse (cs : List Char) : Except Unit Json :=
  match jsonParseVal (cs.length + 1) cs with
  | some (v, rest) =>
    if skipJsonWs rest = [] then Except.ok v else Except.error ()
  | none => Except.error ()

/-- Model of the .md branch of tldrawWrite (lines 363 to 393): the input
payload is normalized first, then the existing block is located, its
text parsed and normalized (failures here propagate and fail the
write), the disk container is preferred over the inline one, and the
serialized payload is spliced between the offsets of the located block
with a newline on each side. -/
def tldrawWriteMd (md : List Char) (input : Json) : Except Err (List Char) :=
  match normalizeTldrawPayload input with
  | Except.error e => Except.error e
  | Except.ok (file, inputWrappedContainer) =>
    match locateMarkdownTldrawBlock md with
    | Except.error e => Except.error e
    | Except.ok block =>
      match jsonParse block.jsonText with
      | Except.error _ => Except.error Err.malformedContent
      | Except.ok existingData =>
        match normalizeTldrawPayload existingData with
        | Except.error e => Except.error e
        | Except.ok (_, existingWrappedContainer) =>
          match (match existingWrappedContainer with
                 | some c => some c
                 | none => inputWrappedContainer) with
          | some fields =>
            Except.ok (md.take block.jsonStart ++
              '\n' :: (jsonStringifyChars (Json.obj (setKey fields "raw" file)) 0 ++
                '\n' :: md.drop block.jsonEnd))
          | none =>
            Except.ok (md.take block.jsonStart ++
              '\n' :: (jsonStringifyChars file 0 ++
                '\n' :: md.drop block.jsonEnd))

lemma occursAt_drop_eq (hay pat : List Char) (i : Nat) (h : occursAt hay pat i) :
    hay.drop i = pat ++ hay.drop (i + pat.length) := by
  unfold occursAt at h
  obtain ⟨t, ht⟩ := (prefixOf_iff_append pat _).mp h
  have hdrop : hay.drop (i + pat.length) = t := by
    rw [← List.drop_drop, ht, List.drop_left]
  rw [hdrop, ht]

lemma occursAt_take_eq (hay pat : List Char) (i : Nat) (h : occursAt hay pat i) :
    hay.take (i + pat.length) = hay.take i ++ pat := by
  have hd := occursAt_drop_eq hay pat i h
  rw [List.take_add]
  congr 1
  rw [hd, List.take_left]

lemma locate_ok_inv (md : List Char) (b : MarkdownTldrawBlock)
    (h : locateMarkdownTldrawBlock md = Except.ok b) :
    ∃ s e, occursAt md startMarkerChars s ∧ occursAt md endMarkerChars e ∧
      b.jsonStart = s + startMarkerChars.length ∧ b.jsonEnd = e ∧
      s + startMarkerChars.length ≤ e := by
  cases hfm : firstMatch startMarkerChars md with
  | none => simp [locateMarkdownTldrawBlock, hfm] at h
  | some s =>
    cases hdx : idxOfFrom md startMarkerChars (s + startMarkerChars.length) with
    | some u => simp [locateMarkdownTldrawBlock, hfm, hdx] at h
    | none =>
      cases hde : idxOfFrom md endMarkerChars (s + startMarkerChars.length) with
      | none => simp [locateMarkdownTldrawBlock, hfm, hdx, hde] at h
      | some e =>
        cases hdd : idxOfFrom md endMarkerChars (e + endMarkerChars.length) with
        | some u => simp [locateMarkdownTldrawBlock, hfm, hdx, hde, hdd] at h
        | none =>
          by_cases htr : jsTrim ((md.drop (s + startMarkerChars.length)).take
              (e - (s + startMarkerChars.length))) = []
          · simp [locateMarkdownTldrawBlock, hfm, hdx, hde, hdd, htr] at h
          · simp only [locateMarkdownTldrawBlock, hfm, hdx, hde, hdd] at h
            rw [if_neg htr] at h
            have hb := Except.ok.inj h
            obtain ⟨hfs, _⟩ :=
              (firstMatch_some_iff startMarkerChars md s).mp hfm
            obtain ⟨hele, heocc, _⟩ :=
              (idxOfFrom_some_iff md endMarkerChars
                (s + startMarkerChars.length) e).mp hde
            exact ⟨s, e, hfs, heocc, by rw [← hb], by rw [← hb], hele⟩

lemma writeMd_ok_shape (md : List Char) (input : Json) (md' : List Char)
    (hw : tldrawWriteMd md input = Except.ok md') :
    ∃ b out, locateMarkdownTldrawBlock md = Except.ok b ∧
      md' = md.take b.jsonStart ++
        '\n' :: (out ++ '\n' :: md.drop b.jsonEnd) := by
  cases hn : normalizeTldrawPayload input with
  | error e => simp [tldrawWriteMd, hn] at hw
  | ok p =>
    obtain ⟨file, ic⟩ := p
    cases hl : locateMarkdownTldrawBlock md with
    | error e => simp [tldrawWriteMd, hn, hl] at hw
    | ok b =>
      cases hp : jsonParse b.jsonText with
      | error u => simp [tldrawWriteMd, hn, hl, hp] at hw
      | ok ed =>
        cases hne : normalizeTldrawPayload ed with
        | error e => simp [tldrawWriteMd, hn, hl, hp, hne] at hw
        | ok q =>
          obtain ⟨dd, ec⟩ := q
          cases ec with
          | some c =>
            simp only [tldrawWriteMd, hn, hl, hp, hne] at hw
            exact ⟨b, jsonStringifyChars (Json.obj (setKey c "raw" file)) 0, rfl,
              (Except.ok.inj hw).symm⟩
          | none =>
            cases ic with
            | some c2 =>
              simp only [tldrawWriteMd, hn, hl, hp, hne] at hw
              exact ⟨b, jsonStringifyChars (Json.obj (setKey c2 "raw" file)) 0,
                rfl, (Except.ok.inj hw).symm⟩
            | none =>
              simp only [tldrawWriteMd, hn, hl, hp, hne] at hw
              exact ⟨b, jsonStringifyChars file 0, rfl, (Except.ok.inj hw).symm⟩

/-- Claim C3: a successful write to an embedded-format file with a
located block changes only the region strictly between the markers:
both the old and the new content decompose around the same start
marker, prefix, end marker, and suffix. -/
theorem embedded_write_preserves_outside (md md' : List Char) (input : Json)
    (b : MarkdownTldrawBlock)
    (hl : locateMarkdownTldrawBlock md = Except.ok b)
    (hw : tldrawWriteMd md input = Except.ok md') :
    ∃ pre mid mid' suf,
      md = pre ++ startMarkerChars ++ mid ++ endMarkerChars ++ suf ∧
      md' = pre ++ startMarkerChars ++ mid' ++ endMarkerChars ++ suf := by
  obtain ⟨b2, out, hl2, hmd'⟩ := writeMd_ok_shape md input md' hw
  rw [hl] at hl2
  have hbb : b = b2 := Except.ok.inj hl2
  rw [← hbb] at hmd'
  obtain ⟨s, e, hsocc, heocc, hbs, hbe, hsle⟩ := locate_ok_inv md b hl
  have h1 : md.take (s + startMarkerChars.length) =
      md.take s ++ startMarkerChars := occursAt_take_eq md startMarkerChars s hsocc
  have hd1 := occursAt_decomp md startMarkerChars s hsocc
  have hd2 := occursAt_drop_eq md endMarkerChars e heocc
  have hR : md.drop (s + startMarkerChars.length) =
      (md.drop (s + startMarkerChars.length)).take
        (e - (s + startMarkerChars.length)) ++
        (endMarkerChars ++ md.drop (e + endMarkerChars.length)) := by
    conv_lhs => rw [← List.take_append_drop (e - (s + startMarkerChars.length))
      (md.drop (s + startMarkerChars.length))]
    congr 1
    rw [List.drop_drop,
      show s + startMarkerChars.length + (e - (s + startMarkerChars.length)) = e
        from by omega]
    exact hd2
  have hmd1 : md = md.take s ++ startMarkerChars ++
      ((md.drop (s + startMarkerChars.length)).take
        (e - (s + startMarkerChars.length)) ++
        (endMarkerChars ++ md.drop (e + endMarkerChars.length))) := by
    calc md = md.take s ++ startMarkerChars ++
        md.drop (s + startMarkerChars.length) := hd1
      _ = md.take s ++ startMarkerChars ++
          ((md.drop (s + startMarkerChars.length)).take
            (e - (s + startMarkerChars.length)) ++
            (endMarkerChars ++ md.drop (e + endMarkerChars.length))) := by
        conv_lhs => rw [hR]
  have hmd2 : md' = md.take s ++ startMarkerChars ++
      (('\n' :: (out ++ ['\n'])) ++
        (endMarkerChars ++ md.drop (e + endMarkerChars.length))) := by
    rw [hmd', hbs, hbe, h1, hd2]
    simp [List.append_assoc]
  refine ⟨md.take s,
    (md.drop (s + startMarkerChars.length)).take
      (e - (s + startMarkerChars.length)),
    '\n' :: (out ++ ['\n']), md.drop (e + endMarkerChars.length), ?_, ?_⟩
  · exact hmd1.trans (by simp [List.append_assoc])
  · exact hmd2.trans (by simp [List.append_assoc])

/-- Markdown file whose block payload is the serialized sample document,
for the C3 witness. -/
def mdJsonBlock : List Char :=
  startMarkerChars ++ (jsonStringifyChars docSample 0 ++ endMarkerChars)

/-- Block located in the witness markdown file. -/
def mdJsonBlockLoc : MarkdownTldrawBlock :=
  match locateMarkdownTldrawBlock mdJsonBlock with
  | Except.ok b => b
  | Except.error _ => ⟨0, 0, []⟩

/-- Result of the witness write. -/
def mdWritten : List Char :=
  match tldrawWriteMd mdJsonBlock docSample with
  | Except.ok r => r
  | Except.error _ => []

set_option maxRecDepth 100000 in
/-- Witness for claim C3: writing the sample document into the witness
markdown file preserves everything outside the markers. -/
theorem embedded_write_preserves_outside_witness :
    ∃ pre mid mid' suf,
      mdJsonBlock = pre ++ startMarkerChars ++ mid ++ endMarkerChars ++ suf ∧
      mdWritten = pre ++ startMarkerChars ++ mid' ++ endMarkerChars ++ suf :=
  embedded_write_preserves_outside mdJsonBlock mdWritten docSample
    mdJsonBlockLoc rfl rfl

/-- Claim C4 as amended: for the plain and wrapped JSON format the
container recovery is best-effort; whatever the state of the existing
file (absent, unparseable, or parseable), the write succeeds whenever
the input payload normalizes, and an unparseable existing file
contributes no container.  For the embedded text format the recovery is
not best-effort: a failure while parsing or normalizing the existing
block fails the write. -/
theorem tldr_write_best_effort (existing : Option (Except Unit Json))
    (input file : Json) (ic : Option (List (String × Json)))
    (hn : normalizeTldrawPayload input = Except.ok (file, ic)) :
    (∀ u, existing = some (Except.error u) →
      getWrappedContainerForTldraw existing = none) ∧
    ∃ out, tldrawWriteTldr existing input = Except.ok out := by
  constructor
  · rintro u rfl
    rfl
  · cases hg : getWrappedContainerForTldraw existing with
    | none =>
      cases ic with
      | none => exact ⟨file, by simp [tldrawWriteTldr, hn, hg]⟩
      | some c =>
        exact ⟨Json.obj (setKey c "raw" file), by simp [tldrawWriteTldr, hn, hg]⟩
    | some c =>
      exact ⟨Json.obj (setKey c "raw" file), by simp [tldrawWriteTldr, hn, hg]⟩

/-- Counterexample to claim C4: an embedded-format file with a located
block whose payload is not JSON makes the write fail with
MalformedContent, instead of being treated as no existing container. -/
theorem md_write_not_best_effort_counterexample :
    tldrawWriteMd mdOneBlock docSample = Except.error Err.malformedContent ∧
    (locateMarkdownTldrawBlock mdOneBlock).isOk = true := by
  exact ⟨rfl, by decide⟩

/-- Witness for the amended claim C4 at an unparseable existing file. -/
theorem tldr_write_best_effort_witness :
    getWrappedContainerForTldraw (some (Except.error ())) = none ∧
    ∃ out, tldrawWriteTldr (some (Except.error ())) docSample = Except.ok out := by
  have h := tldr_write_best_effort (some (Except.error ())) docSample docSample
    none rfl
  exact ⟨h.1 () rfl, h.2⟩
